import Mathlib

set_option linter.unnecessarySeqFocus false

/-!
Verification development for the four-player Luzhanqi ("four-nation military
chess") rule engine of the `open_junqi` repository.

The definitions below are a shallow embedding of the Python sources:

* `src/game/piece.py`    — piece kinds, players, powers;
* `src/game/board.py`    — board topology, adjacency, railway reachability,
  `can_move`, `move_piece`, `_battle`, `is_game_over`, flag reveal;
* `src/game/game_logic.py` — placement validation, formations, elimination
  bookkeeping, turn rotation, the `GameLogic.move_piece` / `surrender` /
  `skip_turn` / `start_game` operations;
* `src/game/formations.py` — the named formation templates;
* `src/server/strategies/search.py` — the pool-restricted alpha-beta search.

Python dictionaries of cells are modelled as functions over positions guarded
by the static predicate `onBoard`; the cell kind and owning area are static
(fixed at construction in the source) and are therefore modelled as pure
functions of the position.  Mutation is modelled by explicit state passing.
-/

set_option maxRecDepth 100000

namespace Junqi

/-- Players (seats).  PLAYER1 = South, PLAYER2 = West, PLAYER3 = North,
PLAYER4 = East (src/game/piece.py, class `Player`). -/
inductive Player where
  | PLAYER1
  | PLAYER2
  | PLAYER3
  | PLAYER4
deriving DecidableEq

/-- The four seats in enum order (Python iterates `Player` in this order). -/
def playerList : List Player := [.PLAYER1, .PLAYER2, .PLAYER3, .PLAYER4]

/-- Python attribute `Player.name`, used by the board hash of the search. -/
def Player.pname : Player → String
  | .PLAYER1 => "PLAYER1"
  | .PLAYER2 => "PLAYER2"
  | .PLAYER3 => "PLAYER3"
  | .PLAYER4 => "PLAYER4"

/-- Piece kinds (src/game/piece.py, class `PieceType`). -/
inductive PieceType where
  | COMMANDER
  | GENERAL
  | DIVISION
  | BRIGADE
  | REGIMENT
  | BATTALION
  | COMPANY
  | PLATOON
  | ENGINEER
  | BOMB
  | MINE
  | FLAG
deriving DecidableEq

/-- Python attribute `PieceType.name`, used by the board hash of the search. -/
def PieceType.tname : PieceType → String
  | .COMMANDER => "COMMANDER"
  | .GENERAL => "GENERAL"
  | .DIVISION => "DIVISION"
  | .BRIGADE => "BRIGADE"
  | .REGIMENT => "REGIMENT"
  | .BATTALION => "BATTALION"
  | .COMPANY => "COMPANY"
  | .PLATOON => "PLATOON"
  | .ENGINEER => "ENGINEER"
  | .BOMB => "BOMB"
  | .MINE => "MINE"
  | .FLAG => "FLAG"

/-- src/game/piece.py, `Piece.get_power`. -/
def getPower : PieceType → Int
  | .COMMANDER => 10
  | .GENERAL => 9
  | .DIVISION => 8
  | .BRIGADE => 7
  | .REGIMENT => 6
  | .BATTALION => 5
  | .COMPANY => 4
  | .PLATOON => 3
  | .ENGINEER => 2
  | .BOMB => 1
  | .MINE => 0
  | .FLAG => -1

/-- src/game/piece.py, `Piece` (the `piece_id` is assigned at game start;
the dataclass defaults are `visible=False`, `kill_count=0`, `piece_id=None`). -/
structure Piece where
  pieceType : PieceType
  player : Player
  visible : Bool := false
  killCount : Int := 0
  pieceId : Option String := none
deriving DecidableEq

def Piece.isEngineer (p : Piece) : Bool := p.pieceType = .ENGINEER
def Piece.isBomb (p : Piece) : Bool := p.pieceType = .BOMB
def Piece.isMine (p : Piece) : Bool := p.pieceType = .MINE
def Piece.isFlag (p : Piece) : Bool := p.pieceType = .FLAG

/-- src/game/board.py, `Board._get_axis_players`. -/
def axisPlayers (player : Player) : List Player :=
  if player = .PLAYER1 ∨ player = .PLAYER3 then [.PLAYER1, .PLAYER3]
  else [.PLAYER2, .PLAYER4]

/-- src/game/board.py, `Board._are_allied`. -/
def areAllied (a b : Player) : Bool := decide (a ∈ axisPlayers b)

/-- src/game/board.py, `CellType`. -/
inductive CellType where
  | NORMAL
  | RAILWAY
  | CAMP
  | HEADQUARTERS
deriving DecidableEq

/-- src/game/board.py, `Position` (global 17×17 grid coordinates). -/
structure Pos where
  row : Int
  col : Int
deriving DecidableEq

/-- src/game/board.py, `Board._get_player_area_template`: railway squares of
the canonical (south-oriented) 6×5 template, in 1-based local coordinates. -/
def templateRailway : List (Int × Int) :=
  [(1,1), (1,2), (1,3), (1,4), (1,5),
   (5,1), (5,2), (5,3), (5,4), (5,5),
   (2,1), (3,1), (4,1),
   (2,5), (3,5), (4,5)]

/-- Camp squares of the canonical template. -/
def templateCamp : List (Int × Int) := [(2,2), (2,4), (3,3), (4,2), (4,4)]

/-- Headquarters squares of the canonical template. -/
def templateHeadquarters : List (Int × Int) := [(6,2), (6,4)]

/-- Cell type of a canonical template square
(src/game/board.py, `Board._get_cell_type_by_template`, final lookups). -/
def templateCellType (rs cs : Int) : CellType :=
  if (rs, cs) ∈ templateRailway then .RAILWAY
  else if (rs, cs) ∈ templateCamp then .CAMP
  else if (rs, cs) ∈ templateHeadquarters then .HEADQUARTERS
  else .NORMAL

/-- Owning player area of a global position.  The four 6×5 player boards are
created at the fixed origins of `Board._setup_player_areas`: South rows 11–16 /
cols 6–10, West rows 6–10 / cols 0–5, North rows 0–5 / cols 6–10, East rows
6–10 / cols 11–16.  The central grid belongs to no player. -/
def areaOf (p : Pos) : Option Player :=
  if 11 ≤ p.row ∧ p.row ≤ 16 ∧ 6 ≤ p.col ∧ p.col ≤ 10 then some .PLAYER1
  else if 6 ≤ p.row ∧ p.row ≤ 10 ∧ 0 ≤ p.col ∧ p.col ≤ 5 then some .PLAYER2
  else if 0 ≤ p.row ∧ p.row ≤ 5 ∧ 6 ≤ p.col ∧ p.col ≤ 10 then some .PLAYER3
  else if 6 ≤ p.row ∧ p.row ≤ 10 ∧ 11 ≤ p.col ∧ p.col ≤ 16 then some .PLAYER4
  else none

/-- The nine central-grid railway nodes (src/game/board.py,
`Board._setup_center_grid`: rows/cols 6–10 at even offsets). -/
def isCenterCellPos (p : Pos) : Bool :=
  decide (6 ≤ p.row ∧ p.row ≤ 10 ∧ 6 ≤ p.col ∧ p.col ≤ 10 ∧
          (p.row - 6) % 2 = 0 ∧ (p.col - 6) % 2 = 0)

/-- Whether a global position is a cell of the board (a key of `Board.cells`). -/
def onBoard (p : Pos) : Bool := isCenterCellPos p || (areaOf p).isSome

/-- Cell type of a board position.  Player-area squares map their local
coordinates back onto the canonical south template exactly as
`Board._get_cell_type_by_template` does; central-grid nodes are railway
(`Board._setup_center_grid` / `_setup_railways`). -/
def cellTypeAt (p : Pos) : CellType :=
  match areaOf p with
  | some .PLAYER1 => templateCellType (p.row - 11 + 1) (p.col - 6 + 1)
  | some .PLAYER2 => templateCellType (6 - p.col) (p.row - 6 + 1)
  | some .PLAYER3 => templateCellType (6 - p.row) (5 - (p.col - 6))
  | some .PLAYER4 => templateCellType (p.col - 11 + 1) (5 - (p.row - 6))
  | none => .RAILWAY

/-- All board positions, row-major over the 17×17 grid. -/
def allPositions : List Pos :=
  (List.range 17).flatMap fun r =>
    (List.range 17).filterMap fun c =>
      let p : Pos := ⟨(r : Int), (c : Int)⟩
      if onBoard p then some p else none

/-- src/game/board.py, `Cell` (the position itself is the lookup key). -/
structure Cell where
  cellType : CellType
  playerArea : Option Player
  piece : Option Piece
deriving DecidableEq

/-- The mutable state of `Board`: the piece occupying each cell and the
per-position marks (`player_marks`).  Cell kinds and areas are static. -/
structure Board where
  pieces : Pos → Option Piece
  marks : Pos → Option String

/-- src/game/board.py, `Board.get_cell`. -/
def Board.getCell (b : Board) (p : Pos) : Option Cell :=
  if onBoard p then some ⟨cellTypeAt p, areaOf p, b.pieces p⟩ else none

/-- Point update of the piece map. -/
def Board.setPieceAt (b : Board) (pos : Pos) (pc : Option Piece) : Board :=
  { b with pieces := fun q => if q = pos then pc else b.pieces q }

/-- Point update of the mark map. -/
def Board.setMarkAt (b : Board) (pos : Pos) (m : Option String) : Board :=
  { b with marks := fun q => if q = pos then m else b.marks q }

/-- src/game/board.py, `Board.place_piece`. -/
def Board.placePiece (b : Board) (pos : Pos) (piece : Piece) : Bool × Board :=
  match b.getCell pos with
  | some cell =>
    if cell.piece = none then (true, b.setPieceAt pos (some piece))
    else (false, b)
  | none => (false, b)

/-- src/game/board.py, `Board._is_valid_inter_player_connection`.  The blocks
are translated in source order; note that the final West(1,1)↔North(1,5)
block of the source is unreachable because the earlier North/West block
already returns for every {West, North} pair. -/
def isValidInterPlayerConnection (pos1 pos2 : Pos) (p1 p2 : Player) : Bool :=
  if (p1 = .PLAYER1 ∧ p2 = .PLAYER2) ∨ (p1 = .PLAYER2 ∧ p2 = .PLAYER1) then
    let southPos := if p1 = .PLAYER1 then pos1 else pos2
    let westPos := if p1 = .PLAYER1 then pos2 else pos1
    decide (southPos.row = 11 ∧ southPos.col = 6 ∧ westPos.row = 10 ∧ westPos.col = 5)
  else if (p1 = .PLAYER1 ∧ p2 = .PLAYER4) ∨ (p1 = .PLAYER4 ∧ p2 = .PLAYER1) then
    let southPos := if p1 = .PLAYER1 then pos1 else pos2
    let eastPos := if p1 = .PLAYER1 then pos2 else pos1
    decide (southPos.row = 11 ∧ southPos.col = 10 ∧ eastPos.row = 6 ∧ eastPos.col = 11)
  else if (p1 = .PLAYER3 ∧ p2 = .PLAYER2) ∨ (p1 = .PLAYER2 ∧ p2 = .PLAYER3) then
    let northPos := if p1 = .PLAYER3 then pos1 else pos2
    let westPos := if p1 = .PLAYER3 then pos2 else pos1
    decide (northPos.row = 5 ∧ northPos.col = 10 ∧ westPos.row = 10 ∧ westPos.col = 5)
  else if (p1 = .PLAYER3 ∧ p2 = .PLAYER4) ∨ (p1 = .PLAYER4 ∧ p2 = .PLAYER3) then
    let northPos := if p1 = .PLAYER3 then pos1 else pos2
    let eastPos := if p1 = .PLAYER3 then pos2 else pos1
    decide (northPos.row = 5 ∧ northPos.col = 6 ∧ eastPos.row = 10 ∧ eastPos.col = 11)
  else if (p1 = .PLAYER2 ∧ p2 = .PLAYER3) ∨ (p1 = .PLAYER3 ∧ p2 = .PLAYER2) then
    -- unreachable in the source (the third block already covers {West, North})
    let westPos := if p1 = .PLAYER2 then pos1 else pos2
    let northPos := if p1 = .PLAYER2 then pos2 else pos1
    decide (westPos.row = 6 ∧ westPos.col = 5 ∧ northPos.row = 5 ∧ northPos.col = 6)
  else false

/-- The range test `is_center_position` used by
`Board._is_valid_player_center_connection` (rows 6–10 and cols 6–10,
independent of the even-offset node condition). -/
def isCenterRangePos (p : Pos) : Bool :=
  decide (6 ≤ p.row ∧ p.row ≤ 10 ∧ 6 ≤ p.col ∧ p.col ≤ 10)

/-- The test `is_player_area_position` of
`Board._is_valid_player_center_connection`. -/
def isPlayerAreaPos (p : Pos) : Bool := onBoard p && (areaOf p).isSome

/-- src/game/board.py, `Board._is_valid_player_center_connection`. -/
def isValidConnection (pos1 pos2 : Pos) : Bool :=
  if ¬ (isCenterRangePos pos1 = true ∨ isCenterRangePos pos2 = true) then
    if isPlayerAreaPos pos1 ∧ isPlayerAreaPos pos2 then
      if areaOf pos1 = areaOf pos2 then true
      else
        match areaOf pos1, areaOf pos2 with
        | some q1, some q2 => isValidInterPlayerConnection pos1 pos2 q1 q2
        | _, _ => false
    else true
  else if isCenterRangePos pos1 ∧ isCenterRangePos pos2 ∧
          (((pos1.row - pos2.row).natAbs = 2 ∧ (pos1.col - pos2.col).natAbs = 0) ∨
           ((pos1.row - pos2.row).natAbs = 0 ∧ (pos1.col - pos2.col).natAbs = 2)) then
    true
  else if isPlayerAreaPos pos1 ∧ isPlayerAreaPos pos2 ∧ areaOf pos1 = areaOf pos2 then
    true
  else
    let centerPos := if isCenterRangePos pos1 then pos1 else pos2
    let playerPos := if isCenterRangePos pos1 then pos2 else pos1
    if isCenterRangePos centerPos ∧ isPlayerAreaPos playerPos then
      match areaOf playerPos with
      | some .PLAYER1 =>
        decide (playerPos.row = 11 ∧ (playerPos.col = 6 ∨ playerPos.col = 8 ∨ playerPos.col = 10) ∧
                centerPos.row = 10 ∧ centerPos.col = playerPos.col)
      | some .PLAYER3 =>
        decide (playerPos.row = 5 ∧ (playerPos.col = 6 ∨ playerPos.col = 8 ∨ playerPos.col = 10) ∧
                centerPos.row = 6 ∧ centerPos.col = playerPos.col)
      | some .PLAYER2 =>
        decide (playerPos.col = 5 ∧ (playerPos.row = 6 ∨ playerPos.row = 8 ∨ playerPos.row = 10) ∧
                centerPos.col = 6 ∧ centerPos.row = playerPos.row)
      | some .PLAYER4 =>
        decide (playerPos.col = 11 ∧ (playerPos.row = 6 ∨ playerPos.row = 8 ∨ playerPos.row = 10) ∧
                centerPos.col = 10 ∧ centerPos.row = playerPos.row)
      | none => false
    else false

/-- The diagonal offsets of the camp adjacency extension. -/
def campDiagonals : List (Int × Int) := [(-1, -1), (-1, 1), (1, -1), (1, 1)]

/-- src/game/board.py, `Board.get_adjacent_positions`.  Adjacency depends only
on the static topology, never on the pieces. -/
def adjacentPositions (position : Pos) : List Pos :=
  let isCenterNode :=
    decide (6 ≤ position.row ∧ position.row ≤ 10 ∧ 6 ≤ position.col ∧ position.col ≤ 10 ∧
            position.row % 2 = 0 ∧ position.col % 2 = 0)
  let dirs : List (Int × Int) :=
    if isCenterNode then [(-2, 0), (2, 0), (0, -2), (0, 2), (-1, 0), (1, 0), (0, -1), (0, 1)]
    else [(-1, 0), (1, 0), (0, -1), (0, 1)]
  let adjacent := dirs.filterMap fun d =>
    let np : Pos := ⟨position.row + d.1, position.col + d.2⟩
    if onBoard np ∧ isValidConnection position np then some np else none
  if onBoard position then
    campDiagonals.foldl
      (fun acc d =>
        let dp : Pos := ⟨position.row + d.1, position.col + d.2⟩
        if onBoard dp then
          if (cellTypeAt position = .CAMP ∨ cellTypeAt dp = .CAMP) ∧
             (areaOf position).isSome ∧ areaOf position = areaOf dp then
            if dp ∈ acc then acc else acc ++ [dp]
          else acc
        else acc)
      adjacent
  else adjacent

/-- The four fixed cross-quadrant corner links of the railway BFS
(src/game/board.py, `Board.get_railway_connected_positions`, `corner_links`). -/
def cornerLinks : List (Pos × Pos) :=
  [(⟨6, 5⟩, ⟨5, 6⟩), (⟨10, 5⟩, ⟨11, 6⟩), (⟨11, 10⟩, ⟨10, 11⟩), (⟨6, 11⟩, ⟨5, 10⟩)]

/-- Mutable state of the railway BFS (`q`, `visited`, `reachable`). -/
structure BfsState where
  queue : List Pos
  visited : List Pos
  reachable : List Pos

/-- The `try_bridge` closure of `Board.get_railway_connected_positions`. -/
def tryBridge (b : Board) (startPiece : Option Piece) (toPos : Pos) (st : BfsState) : BfsState :=
  if toPos ∈ st.visited then st
  else
    match b.getCell toPos with
    | none => st
    | some toCell =>
      if toCell.cellType ≠ .RAILWAY then st
      else
        let st := { st with visited := toPos :: st.visited }
        match toCell.piece with
        | some q =>
          match startPiece with
          | some sp =>
            if ¬ areAllied q.player sp.player then { st with reachable := toPos :: st.reachable }
            else st
          | none => st
        | none => { st with reachable := toPos :: st.reachable, queue := st.queue ++ [toPos] }

/-- The BFS loop of `Board.get_railway_connected_positions`, with explicit
fuel (the Python loop terminates because `visited` grows; 400 exceeds the
number of board cells, so the fuel never runs out on a real board). -/
def railwayBfs (b : Board) (startPiece : Option Piece) : Nat → BfsState → BfsState
  | 0, st => st
  | fuel + 1, st =>
    match st.queue with
    | [] => st
    | current :: rest =>
      let st := { st with queue := rest }
      let st := cornerLinks.foldl
        (fun s ab =>
          if current = ab.1 then tryBridge b startPiece ab.2 s
          else if current = ab.2 then tryBridge b startPiece ab.1 s
          else s)
        st
      let st := (adjacentPositions current).foldl
        (fun s adj =>
          if adj ∈ s.visited then s
          else
            match b.getCell adj with
            | none => s
            | some adjCell =>
              if adjCell.cellType ≠ .RAILWAY then s
              else
                let s := { s with visited := adj :: s.visited }
                match adjCell.piece with
                | some q =>
                  match startPiece with
                  | some sp =>
                    if ¬ areAllied q.player sp.player then { s with reachable := adj :: s.reachable }
                    else s
                  | none => s
                | none => { s with reachable := adj :: s.reachable, queue := s.queue ++ [adj] })
        st
      railwayBfs b startPiece fuel st

/-- src/game/board.py, `Board.get_railway_connected_positions` (engineer
railway reachability: BFS over railway cells; an occupied cell is terminal,
and reachable only when held by an enemy). -/
def railwayConnectedPositions (b : Board) (position : Pos) : List Pos :=
  match b.getCell position with
  | none => []
  | some startCell =>
    if startCell.cellType ≠ .RAILWAY then []
    else (railwayBfs b startCell.piece 400 ⟨[position], [position], []⟩).reachable

/-- Association lookup on position-keyed tables. -/
def assocFindP {α : Type} (l : List (Pos × α)) (k : Pos) : Option α :=
  (l.find? fun e => decide (e.1 = k)).map (·.2)

/-- src/game/board.py, `allowed_sources_by_corner` of
`Board.get_railway_straight_reachable_positions`: for each of the 8 corner
positions, the five edge-line points whose pieces may bridge there. -/
def allowedSourcesByCorner : List (Pos × List Pos) :=
  [(⟨11, 6⟩, [⟨11, 6⟩, ⟨12, 6⟩, ⟨13, 6⟩, ⟨14, 6⟩, ⟨15, 6⟩]),
   (⟨11, 10⟩, [⟨11, 10⟩, ⟨12, 10⟩, ⟨13, 10⟩, ⟨14, 10⟩, ⟨15, 10⟩]),
   (⟨5, 6⟩, [⟨5, 6⟩, ⟨4, 6⟩, ⟨3, 6⟩, ⟨2, 6⟩, ⟨1, 6⟩]),
   (⟨5, 10⟩, [⟨5, 10⟩, ⟨4, 10⟩, ⟨3, 10⟩, ⟨2, 10⟩, ⟨1, 10⟩]),
   (⟨6, 5⟩, [⟨6, 5⟩, ⟨6, 4⟩, ⟨6, 3⟩, ⟨6, 2⟩, ⟨6, 1⟩]),
   (⟨10, 5⟩, [⟨10, 5⟩, ⟨10, 4⟩, ⟨10, 3⟩, ⟨10, 2⟩, ⟨10, 1⟩]),
   (⟨6, 11⟩, [⟨6, 11⟩, ⟨6, 12⟩, ⟨6, 13⟩, ⟨6, 14⟩, ⟨6, 15⟩]),
   (⟨10, 11⟩, [⟨10, 11⟩, ⟨10, 12⟩, ⟨10, 13⟩, ⟨10, 14⟩, ⟨10, 15⟩])]

/-- src/game/board.py, `bridge_targets_by_corner`: the opposite edge-line
five points reached through each corner, nearest first. -/
def bridgeTargetsByCorner : List (Pos × List Pos) :=
  [(⟨11, 6⟩, [⟨10, 5⟩, ⟨10, 4⟩, ⟨10, 3⟩, ⟨10, 2⟩, ⟨10, 1⟩]),
   (⟨11, 10⟩, [⟨10, 11⟩, ⟨10, 12⟩, ⟨10, 13⟩, ⟨10, 14⟩, ⟨10, 15⟩]),
   (⟨5, 6⟩, [⟨6, 5⟩, ⟨6, 4⟩, ⟨6, 3⟩, ⟨6, 2⟩, ⟨6, 1⟩]),
   (⟨5, 10⟩, [⟨6, 11⟩, ⟨6, 12⟩, ⟨6, 13⟩, ⟨6, 14⟩, ⟨6, 15⟩]),
   (⟨6, 5⟩, [⟨5, 6⟩, ⟨4, 6⟩, ⟨3, 6⟩, ⟨2, 6⟩, ⟨1, 6⟩]),
   (⟨10, 5⟩, [⟨11, 6⟩, ⟨12, 6⟩, ⟨13, 6⟩, ⟨14, 6⟩, ⟨15, 6⟩]),
   (⟨6, 11⟩, [⟨5, 10⟩, ⟨4, 10⟩, ⟨3, 10⟩, ⟨2, 10⟩, ⟨1, 10⟩]),
   (⟨10, 11⟩, [⟨11, 10⟩, ⟨12, 10⟩, ⟨13, 10⟩, ⟨14, 10⟩, ⟨15, 10⟩])]

/-- The `add_step` closure of
`Board.get_railway_straight_reachable_positions`; returns
(should stop, added, updated reachable list). -/
def addStep (b : Board) (startPiece : Option Piece) (nextPos : Pos)
    (reachable : List Pos) : Bool × Bool × List Pos :=
  match b.getCell nextPos with
  | none => (true, false, reachable)
  | some cell =>
    if cell.cellType ≠ .RAILWAY then (true, false, reachable)
    else
      match cell.piece with
      | some q =>
        match startPiece with
        | some sp =>
          if ¬ areAllied q.player sp.player then (true, true, nextPos :: reachable)
          else (true, false, reachable)
        | none => (true, false, reachable)
      | none => (false, true, nextPos :: reachable)

/-- Scan axes of the straight railway move. -/
inductive Axis where
  | h
  | v
deriving DecidableEq

/-- The `next_along_axis` closure: the nearest adjacent railway node in the
given direction on the given axis, excluding the node just come from.  Python
sorts the candidates by distance and takes the first; distances of distinct
candidates in one direction differ, so keeping the strictly nearer candidate
in a fold reproduces that choice. -/
def nextAlongAxis (b : Board) (curr : Pos) (axis : Axis) (sign : Int)
    (prev : Option Pos) : Option Pos :=
  let candidates := (adjacentPositions curr).filter fun adj =>
    (match b.getCell adj with
     | some c => decide (c.cellType = .RAILWAY)
     | none => false) &&
    (match axis with
     | .h => decide (adj.row = curr.row ∧
         ((sign > 0 ∧ adj.col - curr.col > 0) ∨ (sign < 0 ∧ adj.col - curr.col < 0)) ∧
         prev ≠ some adj)
     | .v => decide (adj.col = curr.col ∧
         ((sign > 0 ∧ adj.row - curr.row > 0) ∨ (sign < 0 ∧ adj.row - curr.row < 0)) ∧
         prev ≠ some adj))
  let dist : Pos → Nat := fun q =>
    match axis with
    | .h => (q.col - curr.col).natAbs
    | .v => (q.row - curr.row).natAbs
  match candidates with
  | [] => none
  | c :: cs => some (cs.foldl (fun best cand => if dist cand < dist best then cand else best) c)

/-- The `perform_bridge` closure: at a hard-coded corner whose source edge
contains the origin, walk the opposite edge points with `add_step` until the
first stop.  Returns whether a bridge was performed plus the updated
reachable list. -/
def performBridge (b : Board) (startPiece : Option Piece) (position curr : Pos)
    (reachable : List Pos) : Bool × List Pos :=
  match assocFindP allowedSourcesByCorner curr with
  | none => (false, reachable)
  | some sourceEdge =>
    if position ∉ sourceEdge ∧ position ≠ curr then (false, reachable)
    else
      let targets := (assocFindP bridgeTargetsByCorner curr).getD []
      let result := targets.foldl
        (fun (acc : Bool × List Pos) t =>
          if acc.1 then acc
          else
            let step := addStep b startPiece t acc.2
            (step.1, step.2.2))
        (false, reachable)
      (true, result.2)

/-- The while-loop of `scan_axis`, with explicit fuel (each step strictly
advances the scanned coordinate, so 40 steps exceed any path on the 17×17
board). -/
def scanLoop (b : Board) (startPiece : Option Piece) (position : Pos) (axis : Axis)
    (sign : Int) (canBridge : Bool) :
    Nat → Pos → Option Pos → Bool → List Pos → List Pos
  | 0, _, _, _, reachable => reachable
  | fuel + 1, curr, prev, bridged, reachable =>
    match nextAlongAxis b curr axis sign prev with
    | none => reachable
    | some nxt =>
      let step := addStep b startPiece nxt reachable
      if step.1 then step.2.2
      else
        let reachable := step.2.2
        let prev' := some curr
        let curr' := nxt
        if canBridge ∧ ¬ bridged then
          let br := performBridge b startPiece position curr' reachable
          scanLoop b startPiece position axis sign canBridge fuel curr' prev' br.1 br.2
        else
          scanLoop b startPiece position axis sign canBridge fuel curr' prev' bridged reachable

/-- The `scan_axis` closure of
`Board.get_railway_straight_reachable_positions`. -/
def scanAxis (b : Board) (startPiece : Option Piece) (position : Pos) (axis : Axis)
    (sign : Int) (reachable : List Pos) : List Pos :=
  let canBridge := allowedSourcesByCorner.any fun e => decide (position ∈ e.2)
  if canBridge then
    let br := performBridge b startPiece position position reachable
    scanLoop b startPiece position axis sign canBridge 40 position none br.1 br.2
  else
    scanLoop b startPiece position axis sign canBridge 40 position none false reachable

/-- src/game/board.py, `Board.get_railway_straight_reachable_positions`
(non-engineer railway movement: single-axis scans with at most one corner
bridge, ally blocks, first enemy is terminal). -/
def railwayStraightReachablePositions (b : Board) (position : Pos) : List Pos :=
  match b.getCell position with
  | none => []
  | some startCell =>
    if startCell.cellType ≠ .RAILWAY then []
    else
      let r := scanAxis b startCell.piece position .h 1 []
      let r := scanAxis b startCell.piece position .h (-1) r
      let r := scanAxis b startCell.piece position .v 1 r
      scanAxis b startCell.piece position .v (-1) r

/-- src/game/board.py, `Board.can_move`. -/
def canMove (b : Board) (fromPos toPos : Pos) : Bool :=
  match b.getCell fromPos, b.getCell toPos with
  | some fromCell, some toCell =>
    match fromCell.piece with
    | none => false
    | some piece =>
      if fromCell.cellType = .HEADQUARTERS then false
      else if piece.isMine || piece.isFlag then false
      else if (match toCell.piece with
               | some q => areAllied q.player piece.player
               | none => false) then false
      else if toCell.piece.isSome ∧ toCell.cellType = .CAMP then false
      else if fromCell.cellType = .RAILWAY ∧ toCell.cellType = .RAILWAY then
        if piece.isEngineer then decide (toPos ∈ railwayConnectedPositions b fromPos)
        else decide (toPos ∈ railwayStraightReachablePositions b fromPos)
      else decide (toPos ∈ adjacentPositions fromPos)
  | _, _ => false

/-- Result of `Board._battle`: the source returns the attacker object, the
defender object, or `None` (mutual death); only which of the three is
returned matters. -/
inductive BattleOutcome where
  | attackerWins
  | defenderWins
  | bothDie
deriving DecidableEq

/-- src/game/board.py, `Board._battle`. -/
def battle (attacker defender : Piece) : BattleOutcome :=
  if defender.isFlag then .attackerWins
  else if attacker.isBomb || defender.isBomb then .bothDie
  else if defender.isMine then
    if attacker.isEngineer then .attackerWins else .defenderWins
  else if attacker.isMine then .defenderWins
  else
    let attackerPower := getPower attacker.pieceType
    let defenderPower := getPower defender.pieceType
    if attackerPower > defenderPower then .attackerWins
    else if attackerPower < defenderPower then .defenderWins
    else .bothDie

/-- src/game/board.py, `Board._reveal_flags_for_players`. -/
def revealFlagsForPlayers (b : Board) (players : List Player) : Board :=
  { b with pieces := fun q =>
      if onBoard q then
        match b.pieces q with
        | some pc =>
          if pc.isFlag ∧ pc.player ∈ players then some { pc with visible := true }
          else some pc
        | none => none
      else b.pieces q }

/-- src/game/board.py, `Board.move_piece`. -/
def Board.movePiece (b : Board) (fromPos toPos : Pos) : Bool × Board :=
  if ¬ canMove b fromPos toPos then (false, b)
  else
    match b.pieces fromPos with
    | none => (false, b)   -- unreachable: `canMove` demands a piece at the origin
    | some movingPiece =>
      let hadFromMark := (b.marks fromPos).isSome
      let hadToMark := (b.marks toPos).isSome
      match b.pieces toPos with
      | some targetPiece =>
        match battle movingPiece targetPiece with
        | .attackerWins =>
          let deadCommanders :=
            if targetPiece.pieceType = .COMMANDER then [targetPiece.player] else []
          let winner :=
            { movingPiece with killCount := movingPiece.killCount + (targetPiece.killCount + 1) }
          let b := (b.setPieceAt toPos (some winner)).setPieceAt fromPos none
          let b := if hadFromMark then
              (b.setMarkAt toPos (b.marks fromPos)).setMarkAt fromPos none
            else b
          let b := if hadToMark then b.setMarkAt toPos none else b
          (true, if deadCommanders.isEmpty then b else revealFlagsForPlayers b deadCommanders)
        | .defenderWins =>
          let deadCommanders :=
            if movingPiece.pieceType = .COMMANDER then [movingPiece.player] else []
          let defenderUpdated :=
            { targetPiece with killCount := targetPiece.killCount + (movingPiece.killCount + 1) }
          let b := (b.setPieceAt toPos (some defenderUpdated)).setPieceAt fromPos none
          let b := if hadFromMark then b.setMarkAt fromPos none else b
          (true, if deadCommanders.isEmpty then b else revealFlagsForPlayers b deadCommanders)
        | .bothDie =>
          let deadCommanders :=
            (if movingPiece.pieceType = .COMMANDER then [movingPiece.player] else []) ++
            (if targetPiece.pieceType = .COMMANDER then [targetPiece.player] else [])
          let b := (b.setPieceAt fromPos none).setPieceAt toPos none
          let b := if hadFromMark then b.setMarkAt fromPos none else b
          let b := if hadToMark then b.setMarkAt toPos none else b
          (true, if deadCommanders.isEmpty then b else revealFlagsForPlayers b deadCommanders)
      | none =>
        let b := (b.setPieceAt toPos (some movingPiece)).setPieceAt fromPos none
        let b := if hadFromMark then
            (b.setMarkAt toPos (b.marks fromPos)).setMarkAt fromPos none
          else b
        (true, b)

/-- The set of players with at least one piece on the board, as accumulated
by the loop of `Board.is_game_over`. -/
def aliveSet (b : Board) : List Player :=
  allPositions.foldl
    (fun acc pos =>
      match b.pieces pos with
      | some pc => if pc.player ∈ acc then acc else pc.player :: acc
      | none => acc)
    []

/-- src/game/board.py, `Board.is_game_over`.  The statements that count the
remaining flags come after an unconditional `return` in the source and are
unreachable, so they have no counterpart here. -/
def Board.isGameOver (b : Board) : Bool :=
  let alive := aliveSet b
  let southNorthDead := decide (Player.PLAYER1 ∉ alive) && decide (Player.PLAYER3 ∉ alive)
  let eastWestDead := decide (Player.PLAYER2 ∉ alive) && decide (Player.PLAYER4 ∉ alive)
  southNorthDead || eastWestDead

/-- src/game/board.py, `Board.has_player_any_legal_move`. -/
def Board.hasPlayerAnyLegalMove (b : Board) (player : Player) : Bool :=
  allPositions.any fun pos =>
    match b.getCell pos with
    | none => false
    | some cell =>
      match cell.piece with
      | none => false
      | some pc =>
        if pc.player ≠ player then false
        else if cell.cellType = .HEADQUARTERS ∨ pc.isMine ∨ pc.isFlag then false
        else
          let candidates :=
            if cell.cellType = .RAILWAY then
              if pc.isEngineer then railwayConnectedPositions b pos
              else railwayStraightReachablePositions b pos
            else adjacentPositions pos
          candidates.any fun toPos => canMove b pos toPos

/-- src/game/game_logic.py, `GameState`. -/
inductive GState where
  | SETUP
  | PLAYING
  | FINISHED
deriving DecidableEq

/-- src/game/history.py, `MoveRecord`.  The wall-clock timestamp field `ts`
is real time and is not modelled. -/
structure MoveRecord where
  turn : Nat
  playerFaction : String
  pieceId : String
  fromLocal : Int × Int
  toLocal : Int × Int
  outcome : String
  defenderPieceId : Option String
  deadPieceIds : List String
deriving DecidableEq

/-- The state of `GameLogic` (src/game/game_logic.py).  The `player_pieces`
roster lists are written but never read by the operations verified here and
are omitted; the history recorder is its list of move records. -/
structure GameLogic where
  board : Board
  gameState : GState
  currentPlayer : Player
  setupComplete : Player → Bool
  eliminatedPlayers : List Player
  testingMode : Bool
  history : List MoveRecord

/-- Insertion into the eliminated set (`set.add`). -/
def elimInsert (s : List Player) (p : Player) : List Player :=
  if p ∈ s then s else p :: s

/-- src/game/game_logic.py, `GameLogic._get_local_coords` (1-based local
coordinates of each seat). -/
def getLocalCoords (position : Pos) (player : Player) : Int × Int :=
  match player with
  | .PLAYER1 => (position.row - 11 + 1, position.col - 6 + 1)
  | .PLAYER2 => (5 - (position.col - 0) + 1, (position.row - 6) + 1)
  | .PLAYER3 => (6 - (position.row - 0), 5 - (position.col - 6))
  | .PLAYER4 => ((position.col - 11) + 1, 5 - (position.row - 6))

/-- src/game/game_logic.py, `GameLogic._is_first_row`. -/
def isFirstRow (position : Pos) (player : Player) : Bool :=
  (getLocalCoords position player).1 = 1

/-- src/game/game_logic.py, `GameLogic._is_last_two_rows`. -/
def isLastTwoRows (position : Pos) (player : Player) : Bool :=
  (getLocalCoords position player).1 = 5 ∨ (getLocalCoords position player).1 = 6

/-- src/game/game_logic.py, `GameLogic.can_place_piece`. -/
def canPlacePiece (st : GameLogic) (position : Pos) (piece : Piece) : Bool :=
  match st.board.getCell position with
  | none => false
  | some cell =>
    if cell.piece ≠ none then false
    else if cell.playerArea ≠ some piece.player then false
    else if cell.cellType = .CAMP then false
    else if piece.pieceType = .BOMB then ¬ isFirstRow position piece.player
    else if piece.pieceType = .MINE then isLastTwoRows position piece.player
    else if piece.pieceType = .FLAG then cell.cellType = .HEADQUARTERS
    else true

/-- src/game/game_logic.py, `GameLogic.can_piece_stand_at` (the layout rule
check used by setup-phase drag and swap). -/
def canPieceStandAt (st : GameLogic) (piece : Piece) (position : Pos) : Bool :=
  match st.board.getCell position with
  | none => false
  | some cell =>
    if cell.playerArea ≠ some piece.player then false
    else if cell.cellType = .CAMP then false
    else if piece.pieceType = .BOMB then ¬ isFirstRow position piece.player
    else if piece.pieceType = .MINE then isLastTwoRows position piece.player
    else if piece.pieceType = .FLAG then cell.cellType = .HEADQUARTERS
    else cell.cellType ≠ .HEADQUARTERS

/-- src/game/game_logic.py, `GameLogic.place_piece`. -/
def GameLogic.placePiece (st : GameLogic) (position : Pos) (piece : Piece) :
    Bool × GameLogic :=
  if st.gameState ≠ .SETUP then (false, st)
  else if ¬ canPlacePiece st position piece then (false, st)
  else
    let piece := if st.testingMode then { piece with visible := true } else piece
    let r := st.board.placePiece position piece
    (r.1, { st with board := r.2 })

/-- src/game/board.py, `Board.get_player_area` (placement area of a seat:
every cell of the seat except camps), also
`GameLogic.get_player_setup_area`. -/
def getPlayerSetupArea (player : Player) : List Pos :=
  allPositions.filter fun pos => decide (areaOf pos = some player ∧ cellTypeAt pos ≠ .CAMP)

/-- src/game/game_logic.py, `GameLogic._find_global_by_local`. -/
def findGlobalByLocal (player : Player) (localRow localCol : Int) : Option Pos :=
  (getPlayerSetupArea player).find? fun pos =>
    decide (getLocalCoords pos player = (localRow, localCol))

/-- src/game/formations.py, `CHAR_TO_PIECE` / `char_to_piece_type`. -/
def charToPieceType (ch : Char) : Option PieceType :=
  match ch with
  | '司' => some .COMMANDER
  | '令' => some .COMMANDER
  | '军' => some .GENERAL
  | '师' => some .DIVISION
  | '旅' => some .BRIGADE
  | '团' => some .REGIMENT
  | '营' => some .BATTALION
  | '连' => some .COMPANY
  | '排' => some .PLATOON
  | '兵' => some .ENGINEER
  | '炸' => some .BOMB
  | '弹' => some .BOMB
  | '雷' => some .MINE
  | '旗' => some .FLAG
  | _ => none

/-- src/game/formations.py, the `FORMATIONS` table (each grid is six rows of
at most five characters in south-local coordinates). -/
def FORMATIONS : List (String × List String) :=
  [("河东狮吼", ["师兵连排师", "旅…连…炸", "炸营…团旅", "军…兵…连", "司兵营雷排", "团排雷旗雷"]),
   ("午夜风铃", ["连旅司兵团", "师…炸…军", "团排…连兵", "排…营…营", "雷雷连师炸", "雷旗旅排兵"]),
   ("飞花逐月", ["连司军兵师", "师…连…旅", "团弹…弹团", "营…排…营", "旅兵兵排雷", "雷旗雷排连"]),
   ("飘香一剑", ["师兵连旅师", "团…连…炸", "团营…炸营", "司…兵…连", "军兵旅雷排", "排排雷旗雷"]),
   ("于无声处", ["师兵军排营", "团…兵…旅", "师弹…连司", "弹…排…连", "营雷连雷团", "旅旗雷排兵"]),
   ("乌龙摆尾", ["营兵团排连", "师…兵…司", "旅连…军排", "连…兵…团", "弹旅师营雷", "弹排雷旗雷"]),
   ("三节阵", ["团排军兵令", "连…兵…团", "师弹…兵连", "排…连…旅", "雷营师弹旅", "雷旗雷排营"]),
   ("狼来了", ["团兵旅师连", "营…兵…军", "司兵…弹师", "排…弹…团", "营旅连雷连", "排排雷旗雷"]),
   ("雾山重剑", ["连排兵兵团", "师…连…司", "团营…营师", "炸…兵…旅", "军连旅雷炸", "雷旗雷排排"])]

/-- Association lookup on string-keyed tables. -/
def assocFindS {α : Type} (l : List (String × α)) (k : String) : Option α :=
  (l.find? fun e => decide (e.1 = k)).map (·.2)

/-- src/game/formations.py, `has_formation`. -/
def fmHas (name : String) : Bool :=
  match assocFindS FORMATIONS name with
  | some g => g.length = 6
  | none => false

/-- Characters skipped by `GameLogic.apply_formation` (empty squares). -/
def skipChar (ch : Char) : Bool :=
  ch = '·' || ch = ' ' || ch = '…' || ch = '.'

/-- The `row.ljust(5, '·')` padding of `GameLogic.apply_formation`. -/
def padRowChars (row : List Char) : List Char :=
  row ++ List.replicate (5 - row.length) '·'

/-- The inner column loop of `GameLogic.apply_formation` (columns enumerated
from 1; a failing placement aborts with the board mutated so far). -/
def placeRowChars (player : Player) (rIdx : Int) :
    Int → List Char → GameLogic → Bool × GameLogic
  | _, [], st => (true, st)
  | cIdx, ch :: rest, st =>
    if skipChar ch then placeRowChars player rIdx (cIdx + 1) rest st
    else
      match charToPieceType ch with
      | none => placeRowChars player rIdx (cIdx + 1) rest st
      | some pt =>
        match findGlobalByLocal player rIdx cIdx with
        | none => (false, st)
        | some target =>
          let piece : Piece := { pieceType := pt, player := player, visible := st.testingMode }
          let r := st.placePiece target piece
          if r.1 then placeRowChars player rIdx (cIdx + 1) rest r.2
          else (false, r.2)

/-- The outer row loop of `GameLogic.apply_formation` (rows enumerated
from 1). -/
def placeGridRows (player : Player) :
    Int → List String → GameLogic → Bool × GameLogic
  | _, [], st => (true, st)
  | rIdx, row :: rest, st =>
    let r := placeRowChars player rIdx 1 (padRowChars row.toList) st
    if r.1 then placeGridRows player (rIdx + 1) rest r.2
    else (false, r.2)

/-- src/game/game_logic.py, `GameLogic.apply_formation`. -/
def applyFormation (st : GameLogic) (player : Player) (name : String) :
    Bool × GameLogic :=
  if ¬ fmHas name then (false, st)
  else
    match assocFindS FORMATIONS name with
    | none => (false, st)
    | some grid => placeGridRows player 1 grid st

/-- Count of the pieces a player has on the board (the `remaining` dictionary
of `GameLogic._ensure_elimination_status`). -/
def countPiecesOf (b : Board) (p : Player) : Nat :=
  allPositions.foldl
    (fun n pos =>
      match b.pieces pos with
      | some pc => if pc.player = p then n + 1 else n
      | none => n)
    0

/-- The piece-clearing loops of src/game/game_logic.py (`surrender`,
`move_piece` flag capture, `_ensure_elimination_status`): remove every piece
of the player from every board cell. -/
def clearPlayerPiecesOnBoard (b : Board) (p : Player) : Board :=
  { b with pieces := fun q =>
      if onBoard q then
        match b.pieces q with
        | some pc => if pc.player = p then none else some pc
        | none => none
      else b.pieces q }

/-- The per-player body of `GameLogic._ensure_elimination_status`: a player
with no remaining piece, or with pieces but no legal move, is eliminated and
its pieces cleared. -/
def ensureStep (remaining : Player → Nat) (acc : GameLogic) (p : Player) : GameLogic :=
  if remaining p = 0 then
    if p ∈ acc.eliminatedPlayers then acc
    else
      { acc with
        eliminatedPlayers := elimInsert acc.eliminatedPlayers p,
        board := clearPlayerPiecesOnBoard acc.board p }
  else
    if ¬ acc.board.hasPlayerAnyLegalMove p then
      if p ∈ acc.eliminatedPlayers then acc
      else
        { acc with
          eliminatedPlayers := elimInsert acc.eliminatedPlayers p,
          board := clearPlayerPiecesOnBoard acc.board p }
    else acc

/-- src/game/game_logic.py, `GameLogic._ensure_elimination_status`.  The
`remaining` counts are a snapshot of the board before the loop; the
legal-move check of a later player sees the clearing already performed for
earlier players, as in the source. -/
def ensureEliminationStatus (st : GameLogic) : GameLogic :=
  playerList.foldl (ensureStep fun p => countPiecesOf st.board p) st

/-- src/game/game_logic.py, counter-clockwise turn order of `_next_turn`. -/
def ccwOrder : List Player := [.PLAYER1, .PLAYER4, .PLAYER3, .PLAYER2]

/-- The four rotation candidates `ccw_order[(current_index + step) % 4]`
for `step` in 1..4 (src/game/game_logic.py, `GameLogic._next_turn`). -/
def nextCandidates (st : GameLogic) : List Player :=
  ([1, 2, 3, 4] : List Nat).filterMap fun step =>
    ccwOrder.get?
      ((ccwOrder.findIdx (fun p => decide (p = st.currentPlayer)) + step) % ccwOrder.length)

/-- src/game/game_logic.py, `GameLogic._next_turn`. -/
def GameLogic.nextTurn (st : GameLogic) : GameLogic :=
  if st.eliminatedPlayers.length ≥ ccwOrder.length - 1 then
    { st with gameState := .FINISHED }
  else
    match (nextCandidates st).find? (fun c => decide (c ∉ st.eliminatedPlayers)) with
    | some c => { st with currentPlayer := c }
    | none => { st with gameState := .FINISHED }

/-- src/game/game_logic.py, `GameLogic.skip_turn`. -/
def GameLogic.skipTurn (st : GameLogic) : Bool × GameLogic :=
  if st.gameState ≠ .PLAYING then (false, st)
  else (true, st.nextTurn)

/-- src/game/game_logic.py, `GameLogic.surrender`. -/
def GameLogic.surrender (st : GameLogic) : Bool × GameLogic :=
  if st.gameState ≠ .PLAYING then (false, st)
  else
    let loser := st.currentPlayer
    let st := { st with board := clearPlayerPiecesOnBoard st.board loser }
    let st := { st with eliminatedPlayers := elimInsert st.eliminatedPlayers loser }
    let st := ensureEliminationStatus st
    let southNorthEliminated :=
      Player.PLAYER1 ∈ st.eliminatedPlayers ∧ Player.PLAYER3 ∈ st.eliminatedPlayers
    let eastWestEliminated :=
      Player.PLAYER2 ∈ st.eliminatedPlayers ∧ Player.PLAYER4 ∈ st.eliminatedPlayers
    if st.board.isGameOver ∨ southNorthEliminated ∨ eastWestEliminated then
      (true, { st with gameState := .FINISHED })
    else (true, st.nextTurn)

/-- Zero-padded three-digit rendering used by the piece ids
(`f-string {counter:03d}`). -/
def padNum3 (n : Nat) : String :=
  if n < 10 then "00" ++ toString n
  else if n < 100 then "0" ++ toString n
  else toString n

/-- src/game/game_logic.py, faction names of `_assign_piece_ids` /
`move_piece`. -/
def factionOf : Player → String
  | .PLAYER1 => "south"
  | .PLAYER2 => "west"
  | .PLAYER3 => "north"
  | .PLAYER4 => "east"

/-- Lexicographic order on local coordinates (`sorted` key of
`_assign_piece_ids`). -/
def lexLeCoords (a b : Int × Int) : Bool :=
  a.1 < b.1 ∨ (a.1 = b.1 ∧ a.2 ≤ b.2)

/-- Insertion into a list sorted by local coordinates. -/
def insertSortedPos (key : Pos → Int × Int) (x : Pos) : List Pos → List Pos
  | [] => [x]
  | y :: ys =>
    if lexLeCoords (key x) (key y) then x :: y :: ys
    else y :: insertSortedPos key x ys

/-- Sort positions by their local coordinates (the keys are distinct, so any
correct sort agrees with Python's). -/
def sortPositionsBy (key : Pos → Int × Int) (l : List Pos) : List Pos :=
  l.foldr (insertSortedPos key) []

/-- src/game/game_logic.py, `GameLogic._assign_piece_ids` for one seat. -/
def assignIdsForPlayer (b : Board) (p : Player) : Board :=
  let area := sortPositionsBy (fun pos => getLocalCoords pos p) (getPlayerSetupArea p)
  (area.foldl
    (fun (acc : Board × Nat) pos =>
      match acc.1.pieces pos with
      | some pc =>
        if pc.player = p then
          (acc.1.setPieceAt pos
            (some { pc with pieceId := some (factionOf p ++ "_" ++ padNum3 (acc.2 + 1)) }),
           acc.2 + 1)
        else acc
      | none => acc)
    (b, 0)).1

/-- src/game/game_logic.py, `GameLogic._assign_piece_ids`. -/
def assignPieceIds (b : Board) : Board :=
  playerList.foldl assignIdsForPlayer b

/-- src/game/game_logic.py, `GameLogic.start_game`.  The uniformly random
choice of the first player is modelled by the explicit `chosen` argument. -/
def GameLogic.startGame (st : GameLogic) (chosen : Player) : Bool × GameLogic :=
  if ¬ playerList.all (fun p => st.setupComplete p) then (false, st)
  else
    (true,
     { st with
       gameState := .PLAYING,
       currentPlayer := chosen,
       testingMode := false,
       eliminatedPlayers := [],
       history := [],
       board := assignPieceIds st.board })

/-- Python truthiness of an optional piece-id string (`if piece_id:`:
false for `None` and for the empty string). -/
def truthyId : Option String → Bool
  | some s => s ≠ ""
  | none => false

/-- src/game/game_logic.py, `GameLogic.move_piece`. -/
def GameLogic.movePiece (st : GameLogic) (fromPos toPos : Pos) : Bool × GameLogic :=
  if st.gameState ≠ .PLAYING then (false, st)
  else
    match st.board.getCell fromPos with
    | none => (false, st)
    | some fromCell =>
      match fromCell.piece with
      | none => (false, st)
      | some movingPiece =>
        if ¬ st.testingMode ∧ movingPiece.player ≠ st.currentPlayer then (false, st)
        else
          let preToCell := st.board.getCell toPos
          let defenderFlagOwner : Option Player :=
            match preToCell with
            | some c =>
              match c.piece with
              | some q => if q.isFlag then some q.player else none
              | none => none
            | none => none
          let defenderExistingId : Option (Option String) :=
            match preToCell with
            | some c =>
              match c.piece with
              | some q => some q.pieceId
              | none => none
            | none => none
          let attackerPlayer := movingPiece.player
          let attackerPieceId := movingPiece.pieceId
          let fromLocal := getLocalCoords fromPos attackerPlayer
          let toLocal := getLocalCoords toPos attackerPlayer
          let moved := st.board.movePiece fromPos toPos
          if ¬ moved.1 then (false, st)
          else
            let st := { st with board := moved.2 }
            let postToCell := st.board.getCell toPos
            let postPieceId : Option (Option String) :=
              match postToCell with
              | some c =>
                match c.piece with
                | some q => some q.pieceId
                | none => none
              | none => none
            let outcomeDead : String × List String :=
              match defenderExistingId with
              | none => ("move", [])
              | some defenderPieceId =>
                if postPieceId = some attackerPieceId then
                  ("attack_attacker_wins",
                   if truthyId defenderPieceId then [defenderPieceId.getD ""] else [])
                else if postPieceId = some defenderPieceId then
                  ("attack_defender_wins",
                   if truthyId attackerPieceId then [attackerPieceId.getD ""] else [])
                else
                  ("attack_both_die",
                   (if truthyId attackerPieceId then [attackerPieceId.getD ""] else []) ++
                   (if truthyId defenderPieceId then [defenderPieceId.getD ""] else []))
            let st :=
              match defenderFlagOwner with
              | none => st
              | some owner =>
                let postFlagCell := st.board.getCell toPos
                let stillFlag : Bool :=
                  match postFlagCell with
                  | some c =>
                    match c.piece with
                    | some q => q.isFlag
                    | none => false
                  | none => false
                if stillFlag = false then
                  { st with
                    eliminatedPlayers := elimInsert st.eliminatedPlayers owner,
                    board := clearPlayerPiecesOnBoard st.board owner }
                else st
            let st := ensureEliminationStatus st
            let southNorthEliminated :=
              Player.PLAYER1 ∈ st.eliminatedPlayers ∧ Player.PLAYER3 ∈ st.eliminatedPlayers
            let eastWestEliminated :=
              Player.PLAYER2 ∈ st.eliminatedPlayers ∧ Player.PLAYER4 ∈ st.eliminatedPlayers
            let st :=
              if st.board.isGameOver ∨ southNorthEliminated ∨ eastWestEliminated then
                { st with gameState := .FINISHED }
              else st.nextTurn
            let record : MoveRecord :=
              { turn := st.history.length + 1,
                playerFaction := factionOf attackerPlayer,
                pieceId := attackerPieceId.getD "",
                fromLocal := fromLocal,
                toLocal := toLocal,
                outcome := outcomeDead.1,
                defenderPieceId := defenderExistingId.getD none,
                deadPieceIds := outcomeDead.2 }
            (true, { st with history := st.history ++ [record] })

/-- Modelled from the spec: `Board.enumerate_player_legal_moves` is invoked
throughout src/server (search.py, game_server.py, game_process.py) but its
definition is not among the source files under src/.  Spec §6 documents the
interface `enumerate_legal_moves(seat) -> [(from, to)]`, the list of legal
moves of the seat, legality being the `can_move` predicate of §4.2. -/
def Board.enumeratePlayerLegalMoves (b : Board) (player : Player) :
    List (Pos × Pos) :=
  (allPositions.filter fun pos =>
      match b.pieces pos with
      | some pc => decide (pc.player = player)
      | none => false).flatMap
    fun fromPos =>
      allPositions.filterMap fun toPos =>
        if canMove b fromPos toPos then some (fromPos, toPos) else none

/-- src/server/strategies/search.py, `_players_turn_order` (rotate the fixed
seat list until the start seat is first). -/
def playersTurnOrder (start : Player) : List Player :=
  let base := [Player.PLAYER1, Player.PLAYER2, Player.PLAYER3, Player.PLAYER4]
  base.dropWhile (fun p => decide (p ≠ start)) ++ base.takeWhile (fun p => decide (p ≠ start))

/-- src/server/strategies/search.py, `_next_player`. -/
def nextPlayer (b : Board) (current : Player) : Player :=
  let order := playersTurnOrder current
  match (order.drop 1 ++ order.take 1).find?
      (fun p => decide (b.enumeratePlayerLegalMoves p ≠ [])) with
  | some p => p
  | none =>
    let base := [Player.PLAYER1, Player.PLAYER2, Player.PLAYER3, Player.PLAYER4]
    let idx := base.findIdx fun q => decide (q = current)
    base.getD ((idx + 1) % 4) .PLAYER1

/-- src/server/strategies/search.py, `_simulate_move` (Python deep-copies the
board; boards are immutable values here, so the copy is implicit). -/
def simulateMove (b : Board) (m : Pos × Pos) : Option Board :=
  let r := b.movePiece m.1 m.2
  if r.1 then some r.2 else none

/-- One item of the `_hash_board` string
(f-string `row,col:player:type:visible:pid`). -/
def pieceItemStr (pos : Pos) (pc : Piece) : String :=
  toString pos.row ++ "," ++ toString pos.col ++ ":" ++ pc.player.pname ++ ":" ++
    pc.pieceType.tname ++ ":" ++ (if pc.visible then "1" else "0") ++ ":" ++
    (match pc.pieceId with
     | some s => s
     | none => "X")

/-- Code-point comparison of strings (Python string ordering). -/
def strLeB (a b : String) : Bool := go a.toList b.toList where
  go : List Char → List Char → Bool
    | [], _ => true
    | _ :: _, [] => false
    | c :: cs, d :: ds => if c = d then go cs ds else decide (c < d)

/-- Insertion sort of the hash items (`items.sort()`). -/
def insertSortedStr (x : String) : List String → List String
  | [] => [x]
  | y :: ys => if strLeB x y then x :: y :: ys else y :: insertSortedStr x ys

def sortStrings (l : List String) : List String :=
  l.foldr insertSortedStr []

/-- src/server/strategies/search.py, `_hash_board`. -/
def hashBoard (b : Board) : String :=
  let items := allPositions.filterMap fun pos =>
    match b.pieces pos with
    | some pc => some (pieceItemStr pos pc)
    | none => none
  String.intercalate "|" (sortStrings items)

/-- The score arithmetic of the search, kept abstract.  The Python search
computes with IEEE floats; the claims verified here are independent of the
score values, so the score type, its constants (`-1e18`, `1e18`, `-1e9`,
`0.0`), its arithmetic and its comparisons are parameters, together with the
two heuristic oracles `evaluate_move` (src/server/strategies/scoring.py) and
`classify_move` (src/server/strategies/behaviors.py) that the search calls
but whose internals it never inspects, and the wall-clock oracle: `clock n`
is the value of `time_exceeded()` at its n-th call. -/
structure SearchOracle (S : Type) where
  negInfLarge : S
  posInfLarge : S
  negInfSmall : S
  zero : S
  add : S → S → S
  sub : S → S → S
  mul : S → S → S
  neg : S → S
  leB : S → S → Bool
  ltB : S → S → Bool
  eqB : S → S → Bool
  evalMove : Board → Player → Piece → Pos → Pos → List MoveRecord → S
  classifyMove : Board → Player → Pos → Pos → String
  clock : Nat → Bool

/-- Python `max` / `min` on scores. -/
def SearchOracle.maxS {S : Type} (o : SearchOracle S) (a b : S) : S :=
  if o.ltB a b then b else a

def SearchOracle.minS {S : Type} (o : SearchOracle S) (a b : S) : S :=
  if o.ltB b a then b else a

/-- src/server/strategies/search.py, `SearchConfig` (`time_limit_ms` acts
only through the clock oracle; the discount is a score). -/
structure SearchConfig (S : Type) where
  depth : Nat := 3
  beamWidth : Nat := 8
  discount : S
  timeLimitMs : Nat := 5000
  useAlphaBeta : Bool := true
  applyStyleFilterFirstPly : Bool := true

/-- src/server/strategies/search.py, `SearchResult`. -/
structure SearchResult (S : Type) where
  bestMove : Option (Pos × Pos)
  score : S
  exploredNodes : Nat
  cutoff : Bool

/-- src/server/strategies/search.py, `_evaluate_state` (team value:
best immediate score of the allies minus best of the enemies). -/
def evaluateState {S : Type} (o : SearchOracle S) (b : Board) (maxPlayer : Player)
    (history : List MoveRecord) : S :=
  let bestFor : List Player → S := fun ps =>
    ps.foldl
      (fun best ap =>
        (b.enumeratePlayerLegalMoves ap).foldl
          (fun best m =>
            match (b.getCell m.1).bind (·.piece) with
            | none => best
            | some attacker =>
              let s := o.evalMove b ap attacker m.1 m.2 history
              if o.ltB best s then s else best)
          best)
      o.negInfSmall
  let allies := playerList.filter fun p => areAllied p maxPlayer
  let enemies := playerList.filter fun p => ¬ areAllied p maxPlayer
  let allyBest := bestFor allies
  let enemyBest := bestFor enemies
  let allyBest := if o.eqB allyBest o.negInfSmall then o.zero else allyBest
  let enemyBest := if o.eqB enemyBest o.negInfSmall then o.zero else enemyBest
  o.sub allyBest enemyBest

/-- Scored-move insertion sort, ascending when `le`, used in place of
Python's stable `list.sort` (the claims verified here depend only on the
membership of the result, not on the ordering of equal scores). -/
def insertSortedScored {S : Type} (le : S → S → Bool) (x : S × (Pos × Pos)) :
    List (S × (Pos × Pos)) → List (S × (Pos × Pos))
  | [] => [x]
  | y :: ys => if le x.1 y.1 then x :: y :: ys else y :: insertSortedScored le x ys

def sortScored {S : Type} (le : S → S → Bool) (l : List (S × (Pos × Pos))) :
    List (S × (Pos × Pos)) :=
  l.foldr (insertSortedScored le) []

/-- src/server/strategies/search.py, `_sort_moves_for_side` (score each move,
sort descending for the maximizing side, ascending otherwise). -/
def sortMovesForSide {S : Type} (o : SearchOracle S) (b : Board) (player : Player)
    (moves : List (Pos × Pos)) (maximizing : Bool) (history : List MoveRecord) :
    List (Pos × Pos) :=
  let scored := moves.filterMap fun m =>
    match (b.getCell m.1).bind (·.piece) with
    | none => none
    | some attacker => some (o.evalMove b player attacker m.1 m.2 history, m)
  let le : S → S → Bool := fun a c => if maximizing then o.leB c a else o.leB a c
  (sortScored le scored).map (·.2)

/-- The fixed context of one `alpha_beta_search` invocation. -/
structure SearchCtx (S : Type) where
  o : SearchOracle S
  cfg : SearchConfig S
  startPlayer : Player
  history : List MoveRecord
  firstPlyMoves : Option (List (Pos × Pos))
  preferredCategory : Option String

/-- The mutable cells of the search closure: the transposition table
(keyed by the `_hash_board`-derived string), the clock-poll counter and the
explored-node counter. -/
structure SearchMut (S : Type) where
  tt : List (String × (Nat × S))
  polls : Nat
  explored : Nat

/-- One call of the `time_exceeded` closure. -/
def pollClock {S : Type} (ctx : SearchCtx S) (mst : SearchMut S) : Bool × SearchMut S :=
  (ctx.o.clock mst.polls, { mst with polls := mst.polls + 1 })

/-- Loop state of the move loop inside `recurse`. -/
structure LoopAcc (S : Type) where
  value : S
  bestMove : Option (Pos × Pos)
  alpha : S
  beta : S
  stopped : Bool
  mst : SearchMut S

/-- Body of the maximizing move loop of `recurse` for one candidate move
(`child` is the recursion at depth − 1; `break` is modelled by the `stopped`
flag that makes the remaining iterations no-ops). -/
def maxLoopStep {S : Type} (ctx : SearchCtx S)
    (child : Board → Player → S → S → SearchMut S → S × Option (Pos × Pos) × SearchMut S)
    (depthN : Nat) (b : Board) (player : Player) (acc : LoopAcc S) (m : Pos × Pos) :
    LoopAcc S :=
  if acc.stopped then acc
  else
    match simulateMove b m with
    | none => acc
    | some b2 =>
      let mst := { acc.mst with explored := acc.mst.explored + 1 }
      let np := nextPlayer b2 player
      let r := child b2 np acc.alpha acc.beta mst
      let childScore := r.1
      let mst := r.2.2
      match (b.getCell m.1).bind (·.piece) with
      | none => { acc with mst := mst }
      | some attacker =>
        let sNow := ctx.o.evalMove b player attacker m.1 m.2 ctx.history
        let total := ctx.o.add sNow (ctx.o.mul ctx.cfg.discount childScore)
        let value := if ctx.o.ltB acc.value total then total else acc.value
        let best :=
          if ctx.o.ltB acc.value total then
            if depthN = ctx.cfg.depth then some m else acc.bestMove
          else acc.bestMove
        let alpha := ctx.o.maxS acc.alpha value
        let stopped := ctx.cfg.useAlphaBeta ∧ ctx.o.leB acc.beta alpha
        { value := value, bestMove := best, alpha := alpha, beta := acc.beta,
          stopped := stopped, mst := mst }

/-- Body of the minimizing move loop of `recurse` for one candidate move. -/
def minLoopStep {S : Type} (ctx : SearchCtx S)
    (child : Board → Player → S → S → SearchMut S → S × Option (Pos × Pos) × SearchMut S)
    (depthN : Nat) (b : Board) (player : Player) (acc : LoopAcc S) (m : Pos × Pos) :
    LoopAcc S :=
  if acc.stopped then acc
  else
    match simulateMove b m with
    | none => acc
    | some b2 =>
      let mst := { acc.mst with explored := acc.mst.explored + 1 }
      let np := nextPlayer b2 player
      let r := child b2 np acc.alpha acc.beta mst
      let childScore := r.1
      let mst := r.2.2
      match (b.getCell m.1).bind (·.piece) with
      | none => { acc with mst := mst }
      | some attacker =>
        let sNow := ctx.o.evalMove b player attacker m.1 m.2 ctx.history
        let total := ctx.o.add (ctx.o.neg sNow) (ctx.o.mul ctx.cfg.discount childScore)
        let value := if ctx.o.ltB total acc.value then total else acc.value
        let best :=
          if ctx.o.ltB total acc.value then
            if depthN = ctx.cfg.depth then some m else acc.bestMove
          else acc.bestMove
        let beta := ctx.o.minS acc.beta value
        let stopped := ctx.cfg.useAlphaBeta ∧ ctx.o.leB beta acc.alpha
        { value := value, bestMove := best, alpha := acc.alpha, beta := beta,
          stopped := stopped, mst := mst }

/-- The body of `recurse` at positive depth `d + 1` (`child` is the
recursion at depth `d`).  Mirrors the source statement by statement:
time check, transposition-table lookup, legal-move enumeration, first-ply
pool restriction, first-ply style filter, ordering, beam width, and the
alpha-beta move loop. -/
def stepCase {S : Type} (ctx : SearchCtx S) (d : Nat)
    (child : Board → Player → S → S → SearchMut S → S × Option (Pos × Pos) × SearchMut S)
    (b : Board) (player : Player) (alpha beta : S) (mst : SearchMut S) :
    S × Option (Pos × Pos) × SearchMut S :=
  let depthN := d + 1
  let polled := pollClock ctx mst
  let mst := polled.2
  if polled.1 then (evaluateState ctx.o b ctx.startPlayer ctx.history, none, mst)
  else
    let stateKey := hashBoard b ++ "|" ++ player.pname ++ "|" ++ toString depthN
    match assocFindS mst.tt stateKey with
    | some entry => (entry.2, none, mst)
    | none =>
      let maximizing := areAllied player ctx.startPlayer
      let legal := b.enumeratePlayerLegalMoves player
      let pooled : Option (List (Pos × Pos)) :=
        if depthN = ctx.cfg.depth then
          match ctx.firstPlyMoves with
          | some pool => some (legal.filter fun m => decide (m ∈ pool))
          | none => none
        else none
      match pooled with
      | some [] =>
        let val := evaluateState ctx.o b ctx.startPlayer ctx.history
        (val, none, { mst with tt := (stateKey, (depthN, val)) :: mst.tt })
      | _ =>
        let legal := (pooled.getD legal)
        let legal :=
          if depthN = ctx.cfg.depth ∧ ctx.cfg.applyStyleFilterFirstPly ∧
             ctx.preferredCategory.isSome then
            let filtered := legal.filter fun m =>
              decide (some (ctx.o.classifyMove b player m.1 m.2) = ctx.preferredCategory)
            if filtered ≠ [] then filtered else legal
          else legal
        if legal = [] then
          let val := evaluateState ctx.o b ctx.startPlayer ctx.history
          (val, none, { mst with tt := (stateKey, (depthN, val)) :: mst.tt })
        else
          let legal := sortMovesForSide ctx.o b player legal maximizing ctx.history
          let legal :=
            if ctx.cfg.beamWidth ≠ 0 ∧ legal.length > ctx.cfg.beamWidth then
              legal.take ctx.cfg.beamWidth
            else legal
          if maximizing then
            let acc := legal.foldl (maxLoopStep ctx child depthN b player)
              { value := ctx.o.negInfLarge, bestMove := none, alpha := alpha,
                beta := beta, stopped := false, mst := mst }
            (acc.value, acc.bestMove,
             { acc.mst with tt := (stateKey, (depthN, acc.value)) :: acc.mst.tt })
          else
            let acc := legal.foldl (minLoopStep ctx child depthN b player)
              { value := ctx.o.posInfLarge, bestMove := none, alpha := alpha,
                beta := beta, stopped := false, mst := mst }
            (acc.value, acc.bestMove,
             { acc.mst with tt := (stateKey, (depthN, acc.value)) :: acc.mst.tt })

/-- The `recurse` closure of `alpha_beta_search`.  Depth 0 polls the clock
and returns the static evaluation with no move, exactly as the source does
both on timeout and on reaching depth 0. -/
def recurse {S : Type} (ctx : SearchCtx S) :
    Nat → Board → Player → S → S → SearchMut S → S × Option (Pos × Pos) × SearchMut S
  | 0 => fun b _player _alpha _beta mst =>
      let polled := pollClock ctx mst
      (evaluateState ctx.o b ctx.startPlayer ctx.history, none, polled.2)
  | d + 1 => stepCase ctx d (recurse ctx d)

/-- src/server/strategies/search.py, `alpha_beta_search`. -/
def alphaBetaSearch {S : Type} (o : SearchOracle S) (cfg : SearchConfig S)
    (history : List MoveRecord) (b : Board) (startPlayer : Player)
    (firstPlyMoves : Option (List (Pos × Pos))) (preferredCategory : Option String) :
    SearchResult S :=
  let ctx : SearchCtx S :=
    { o := o, cfg := cfg, startPlayer := startPlayer, history := history,
      firstPlyMoves := firstPlyMoves, preferredCategory := preferredCategory }
  let r := recurse ctx cfg.depth b startPlayer o.negInfLarge o.posInfLarge
    { tt := [], polls := 0, explored := 0 }
  { bestMove := r.2.1, score := r.1, exploredNodes := r.2.2.explored, cutoff := false }

/-- src/server/strategies/search.py, `search_best_move_in_pool`. -/
def searchBestMoveInPool {S : Type} (o : SearchOracle S) (cfg : SearchConfig S)
    (history : List MoveRecord) (b : Board) (player : Player)
    (candidateMoves : List (Pos × Pos)) (preferredCategory : Option String) :
    SearchResult S :=
  if candidateMoves = [] then
    { bestMove := none, score := o.zero, exploredNodes := 0, cutoff := false }
  else
    alphaBetaSearch o cfg history b player (some candidateMoves) preferredCategory

/-- A concrete integer-valued instantiation of the abstract score oracle
(zero heuristic, clock that never expires), used in witnesses. -/
def intOracle : SearchOracle Int :=
  { negInfLarge := -1000000000000000000,
    posInfLarge := 1000000000000000000,
    negInfSmall := -1000000000,
    zero := 0,
    add := fun a b => a + b,
    sub := fun a b => a - b,
    mul := fun a b => a * b,
    neg := fun a => -a,
    leB := fun a b => decide (a ≤ b),
    ltB := fun a b => decide (a < b),
    eqB := fun a b => decide (a = b),
    evalMove := fun _ _ _ _ _ _ => 0,
    classifyMove := fun _ _ _ _ => "",
    clock := fun _ => false }

/-- A depth-1 search configuration over integer scores, used in witnesses. -/
def cfg1 : SearchConfig Int :=
  { depth := 1, beamWidth := 8, discount := 1, timeLimitMs := 1000,
    useAlphaBeta := true, applyStyleFilterFirstPly := true }

/-! ## Claim C1: the combat table -/

/-- The combat table exactly as claim C1 words it: a Flag defender loses to
any attacker; otherwise a Bomb on either side kills both; otherwise a Mine
defender is beaten exactly by an Engineer; otherwise strictly higher power
wins and equal power kills both. -/
def battleSpecC1 (attacker defender : PieceType) : BattleOutcome :=
  if defender = .FLAG then .attackerWins
  else if attacker = .BOMB ∨ defender = .BOMB then .bothDie
  else if defender = .MINE then
    if attacker = .ENGINEER then .attackerWins else .defenderWins
  else if getPower attacker > getPower defender then .attackerWins
  else if getPower defender > getPower attacker then .defenderWins
  else .bothDie

/-- C1.  The battle function of `Board._battle` is a total (hence
deterministic and exhaustive) function of the two piece kinds, and agrees
with the table of the claim on every pair of kinds: Flag defender ⇒ attacker
wins; any Bomb ⇒ both die; Mine defender ⇒ attacker wins iff it is an
Engineer; otherwise strictly higher power wins and equal power kills both.
(The source's extra `attacker is Mine ⇒ defender wins` branch coincides with
the power comparison, every remaining defender kind outpowering a mine.) -/
theorem C1_battle_table (a d : Piece) :
    battle a d = battleSpecC1 a.pieceType d.pieceType := by
  obtain ⟨ta, pa, va, ka, ia⟩ := a
  obtain ⟨td, pd, vd, kd, idd⟩ := d
  cases ta <;> cases td <;> rfl

/-! ## Claim C2: early rejections of `can_move` -/

/-- Fields of a cell returned by `Board.get_cell`. -/
theorem Board.getCell_some {b : Board} {p : Pos} {c : Cell}
    (h : b.getCell p = some c) :
    onBoard p = true ∧ c = ⟨cellTypeAt p, areaOf p, b.pieces p⟩ := by
  unfold Board.getCell at h
  by_cases hb : onBoard p = true
  · simp [hb] at h
    exact ⟨hb, h.symm⟩
  · simp [hb] at h

/-- Internal form of the C2 property, shared by later proofs. -/
theorem canMove_reject (b : Board) (fromPos toPos : Pos)
    (h : (∃ pc, b.pieces fromPos = some pc ∧
            (pc.pieceType = .MINE ∨ pc.pieceType = .FLAG)) ∨
         cellTypeAt fromPos = .HEADQUARTERS ∨
         (∃ pc qc, b.pieces fromPos = some pc ∧ b.pieces toPos = some qc ∧
            areAllied qc.player pc.player = true) ∨
         ((b.pieces toPos).isSome = true ∧ cellTypeAt toPos = .CAMP)) :
    canMove b fromPos toPos = false := by
  unfold canMove
  cases hf : b.getCell fromPos with
  | none => rfl
  | some fromCell =>
    cases ht : b.getCell toPos with
    | none => rfl
    | some toCell =>
      obtain ⟨hbf, hfc⟩ := Board.getCell_some hf
      obtain ⟨hbt, htc⟩ := Board.getCell_some ht
      subst hfc; subst htc
      cases hp : b.pieces fromPos with
      | none => rfl
      | some piece =>
        by_cases hHQ : cellTypeAt fromPos = CellType.HEADQUARTERS
        · simp [hHQ]
        · by_cases hMF : (piece.isMine || piece.isFlag) = true
          · simp [hHQ, hMF]
          · rcases h with ⟨pc, hpc, hmf⟩ | hHQ2 | ⟨pc, qc, hpc, hqc, hall⟩ | ⟨hsome, hcamp⟩
            · rw [hp] at hpc
              cases hpc
              rcases hmf with hm | hfl
              · exact absurd (by simp [Piece.isMine, hm]) hMF
              · exact absurd (by simp [Piece.isFlag, hfl]) hMF
            · exact absurd hHQ2 hHQ
            · rw [hp] at hpc
              cases hpc
              simp [hHQ, hMF, hqc, hall]
            · cases hq : b.pieces toPos with
              | none => rw [hq] at hsome; simp at hsome
              | some qc =>
                by_cases hall : areAllied qc.player piece.player = true
                · simp [hHQ, hMF, hq, hall]
                · simp [hHQ, hMF, hq, hall, hcamp]

/-- C2.  `Board.can_move` returns false whenever the origin piece is a Mine
or a Flag, or the origin cell is a Headquarters, or the destination holds a
piece allied with the mover (the mover's own seat included), or the
destination is an occupied Camp cell. -/
theorem C2_can_move_rejections (b : Board) (fromPos toPos : Pos)
    (h : (∃ pc, b.pieces fromPos = some pc ∧
            (pc.pieceType = .MINE ∨ pc.pieceType = .FLAG)) ∨
         cellTypeAt fromPos = .HEADQUARTERS ∨
         (∃ pc qc, b.pieces fromPos = some pc ∧ b.pieces toPos = some qc ∧
            areAllied qc.player pc.player = true) ∨
         ((b.pieces toPos).isSome = true ∧ cellTypeAt toPos = .CAMP)) :
    canMove b fromPos toPos = false :=
  canMove_reject b fromPos toPos h

/-- A board holding the given pieces at the given positions and nothing
else, used by concrete instances below. -/
def boardOf (l : List (Pos × Piece)) : Board :=
  { pieces := fun q => (l.find? fun e => decide (e.1 = q)).map (·.2),
    marks := fun _ => none }

/-- A game-logic state over a given board, used by concrete instances
below. -/
def logicOf (b : Board) (gs : GState) (cp : Player) : GameLogic :=
  { board := b, gameState := gs, currentPlayer := cp,
    setupComplete := fun _ => true, eliminatedPlayers := [],
    testingMode := false, history := [] }

/-- Witness for C2: a Mine at the south square (16,8) may not move to the
adjacent square (15,8). -/
theorem C2_can_move_rejections_witness :
    canMove (boardOf [(⟨16, 8⟩, { pieceType := .MINE, player := .PLAYER1 })])
      ⟨16, 8⟩ ⟨15, 8⟩ = false :=
  C2_can_move_rejections _ _ _
    (Or.inl ⟨{ pieceType := .MINE, player := .PLAYER1 }, by decide, Or.inl rfl⟩)

/-! ## Claim C4: the game-over test -/

/-- Whether a player owns no piece on any board cell (decidable form). -/
def noPiecesB (b : Board) (p : Player) : Bool :=
  allPositions.all fun pos =>
    match b.pieces pos with
    | some pc => decide (pc.player ≠ p)
    | none => true

/-- Membership after one step of the alive-set fold of `Board.is_game_over`. -/
theorem mem_aliveStep (b : Board) (acc : List Player) (pos : Pos) (p : Player) :
    p ∈ (match b.pieces pos with
         | some pc => if pc.player ∈ acc then acc else pc.player :: acc
         | none => acc) ↔
      p ∈ acc ∨ ∃ pc, b.pieces pos = some pc ∧ pc.player = p := by
  cases hq : b.pieces pos with
  | none => simp
  | some pc =>
    by_cases hmem : pc.player ∈ acc
    · simp only [if_pos hmem]
      constructor
      · exact fun h => Or.inl h
      · rintro (h | ⟨pc', hpc', hp⟩)
        · exact h
        · cases hpc'
          exact hp ▸ hmem
    · simp only [if_neg hmem, List.mem_cons]
      constructor
      · rintro (heq | h)
        · exact Or.inr ⟨pc, rfl, heq.symm⟩
        · exact Or.inl h
      · rintro (h | ⟨pc', hpc', hp⟩)
        · exact Or.inr h
        · cases hpc'
          exact Or.inl hp.symm

/-- Membership in the alive-set fold of `Board.is_game_over`. -/
theorem mem_aliveFold (b : Board) (p : Player) (l : List Pos) (acc : List Player) :
    p ∈ l.foldl
        (fun acc pos =>
          match b.pieces pos with
          | some pc => if pc.player ∈ acc then acc else pc.player :: acc
          | none => acc)
        acc ↔
      p ∈ acc ∨ ∃ pos ∈ l, ∃ pc, b.pieces pos = some pc ∧ pc.player = p := by
  induction l generalizing acc with
  | nil => simp
  | cons pos l ih =>
    rw [List.foldl_cons, ih, mem_aliveStep]
    constructor
    · rintro ((hacc | hat) | ⟨pos', hpos', hex⟩)
      · exact Or.inl hacc
      · exact Or.inr ⟨pos, by simp, hat⟩
      · exact Or.inr ⟨pos', by simp [hpos'], hex⟩
    · rintro (hacc | ⟨pos', hpos', hex⟩)
      · exact Or.inl (Or.inl hacc)
      · rcases List.mem_cons.mp hpos' with heq | htail
        · exact Or.inl (Or.inr (heq ▸ hex))
        · exact Or.inr ⟨pos', htail, hex⟩

/-- A player is in the alive set iff it owns a piece on some board cell. -/
theorem mem_aliveSet (b : Board) (p : Player) :
    p ∈ aliveSet b ↔ ¬ noPiecesB b p = true := by
  unfold aliveSet noPiecesB
  rw [mem_aliveFold, List.all_eq_true]
  constructor
  · rintro (h | ⟨pos, hpos, pc, hpc, hp⟩)
    · simp at h
    · intro hall
      have := hall pos hpos
      rw [hpc] at this
      simp at this
      exact this hp
  · intro h
    by_contra hcon
    push_neg at hcon
    apply h
    intro pos hpos
    cases hq : b.pieces pos with
    | none => simp
    | some pc =>
      simp only [decide_eq_true_eq]
      intro heq
      exact hcon.2 pos hpos pc hq heq

/-- C4 (amended).  `Board.is_game_over` returns true exactly when both seats
of one alliance axis (South+North, or West+East) have no pieces left on the
board.  The degenerate one-flag clause of the claim sits after an
unconditional `return` in the source and never executes; the counterexample
below exhibits a board with exactly one flag on which the test returns
false. -/
theorem C4_game_over_axes (b : Board) :
    b.isGameOver = ((noPiecesB b .PLAYER1 && noPiecesB b .PLAYER3) ||
                    (noPiecesB b .PLAYER2 && noPiecesB b .PLAYER4)) := by
  unfold Board.isGameOver
  have e : ∀ p : Player, decide (p ∉ aliveSet b) = noPiecesB b p := by
    intro p
    have hp := mem_aliveSet b p
    cases hnp : noPiecesB b p
    · simp only [decide_eq_false_iff_not, not_not]
      exact hp.mpr (by simp [hnp])
    · simp only [decide_eq_true_eq]
      intro hmem
      exact (hp.mp hmem) hnp
  show (decide (Player.PLAYER1 ∉ aliveSet b) && decide (Player.PLAYER3 ∉ aliveSet b) ||
        decide (Player.PLAYER2 ∉ aliveSet b) && decide (Player.PLAYER4 ∉ aliveSet b)) = _
  rw [e, e, e, e]

/-- Counterexample for C4 as stated: a board holding exactly one Flag (the
South flag in its headquarters, with a West engineer elsewhere) on which
`is_game_over` nevertheless returns false, because the one-flag clause of
the source is dead code. -/
theorem C4_counterexample :
    ((allPositions.filter fun pos =>
        match (boardOf [(⟨16, 7⟩, { pieceType := .FLAG, player := .PLAYER1 }),
                        (⟨8, 1⟩, { pieceType := .ENGINEER, player := .PLAYER2 })]).pieces pos with
        | some pc => pc.isFlag
        | none => false).length = 1) ∧
    (boardOf [(⟨16, 7⟩, { pieceType := .FLAG, player := .PLAYER1 }),
              (⟨8, 1⟩, { pieceType := .ENGINEER, player := .PLAYER2 })]).isGameOver = false := by
  constructor
  · decide
  · decide

/-! ## Claim C5: apply_formation is not all-or-nothing -/

/-- C5 (amended).  `apply_formation` leaves the state untouched when it
fails because the template name is unknown; when a placement fails midway
through a known template it returns false but leaves the earlier placements
of that template on the board (see the counterexample). -/
theorem C5_apply_formation_unknown (st : GameLogic) (player : Player) (name : String)
    (h : fmHas name = false) :
    applyFormation st player name = (false, st) := by
  unfold applyFormation
  simp [h]

/-- Witness for C5: an unknown formation name leaves the state unchanged. -/
theorem C5_apply_formation_unknown_witness :
    fmHas "无此阵" = false ∧
    applyFormation (logicOf (boardOf []) .SETUP .PLAYER1) .PLAYER1 "无此阵" =
      (false, logicOf (boardOf []) .SETUP .PLAYER1) :=
  ⟨by decide, C5_apply_formation_unknown _ _ _ (by decide)⟩

/-- Counterexample for C5 as stated: with one south piece already standing
at (11,7) — the south-local square (1,2) of the template — applying
formation 河东狮吼 for South fails (returns false) yet has already placed the
template's (1,1) piece at (11,6): the board differs from its pre-call
state, so the operation is not all-or-nothing. -/
theorem C5_counterexample :
    (applyFormation
        (logicOf (boardOf [(⟨11, 7⟩, { pieceType := .MINE, player := .PLAYER1 })])
          .SETUP .PLAYER1)
        .PLAYER1 "河东狮吼").1 = false ∧
    (applyFormation
        (logicOf (boardOf [(⟨11, 7⟩, { pieceType := .MINE, player := .PLAYER1 })])
          .SETUP .PLAYER1)
        .PLAYER1 "河东狮吼").2.board.pieces ⟨11, 6⟩ ≠
      (logicOf (boardOf [(⟨11, 7⟩, { pieceType := .MINE, player := .PLAYER1 })])
          .SETUP .PLAYER1).board.pieces ⟨11, 6⟩ := by
  constructor
  · decide
  · decide

/-! ## Claim C7: setup placement validation -/

/-- C7 (amended).  During setup, `can_piece_stand_at` accepts a piece at a
position only under all four conditions of the claim (Bomb off the front
local row, Mine on the last two local rows, Flag on the Headquarters, any
other kind on neither Headquarters nor Camp).  `can_place_piece` — the check
used by `place_piece` — enforces the Bomb, Mine and Flag conditions and
rejects Camp cells for every kind, but it accepts non-Flag kinds on a
Headquarters cell (see the counterexample), so the other-kinds-off-HQ clause
of the claim holds only for `can_piece_stand_at`. -/
theorem C7_placement_validation (st : GameLogic) (position : Pos) (piece : Piece) :
    (canPlacePiece st position piece = true →
       (piece.pieceType = .BOMB → isFirstRow position piece.player = false) ∧
       (piece.pieceType = .MINE → isLastTwoRows position piece.player = true) ∧
       (piece.pieceType = .FLAG → cellTypeAt position = .HEADQUARTERS) ∧
       cellTypeAt position ≠ .CAMP) ∧
    (canPieceStandAt st piece position = true →
       (piece.pieceType = .BOMB → isFirstRow position piece.player = false) ∧
       (piece.pieceType = .MINE → isLastTwoRows position piece.player = true) ∧
       (piece.pieceType = .FLAG → cellTypeAt position = .HEADQUARTERS) ∧
       (piece.pieceType ≠ .BOMB → piece.pieceType ≠ .MINE → piece.pieceType ≠ .FLAG →
          cellTypeAt position ≠ .HEADQUARTERS ∧ cellTypeAt position ≠ .CAMP)) := by
  constructor
  · intro h
    unfold canPlacePiece at h
    cases hc : st.board.getCell position with
    | none => rw [hc] at h; cases h
    | some cell =>
      obtain ⟨hob, hcell⟩ := Board.getCell_some hc
      rw [hc] at h
      subst hcell
      by_cases h1 : (Cell.mk (cellTypeAt position) (areaOf position) (st.board.pieces position)).piece ≠ none
      · simp [h1] at h
      · by_cases h2 : (Cell.mk (cellTypeAt position) (areaOf position) (st.board.pieces position)).playerArea ≠ some piece.player
        · simp [h1, h2] at h
        · by_cases h3 : cellTypeAt position = CellType.CAMP
          · simp [h1, h2, h3] at h
          · refine ⟨?_, ?_, ?_, h3⟩
            · intro hb
              simp [h1, h2, h3, hb] at h
              simpa using h
            · intro hm
              have hnb : piece.pieceType ≠ PieceType.BOMB := by simp [hm]
              simp [h1, h2, h3, hnb, hm] at h
              exact h
            · intro hf
              have hnb : piece.pieceType ≠ PieceType.BOMB := by simp [hf]
              have hnm : piece.pieceType ≠ PieceType.MINE := by simp [hf]
              simp [h1, h2, h3, hnb, hnm, hf] at h
              exact h
  · intro h
    unfold canPieceStandAt at h
    cases hc : st.board.getCell position with
    | none => rw [hc] at h; cases h
    | some cell =>
      obtain ⟨hob, hcell⟩ := Board.getCell_some hc
      rw [hc] at h
      subst hcell
      by_cases h2 : (Cell.mk (cellTypeAt position) (areaOf position) (st.board.pieces position)).playerArea ≠ some piece.player
      · simp [h2] at h
      · by_cases h3 : cellTypeAt position = CellType.CAMP
        · simp [h2, h3] at h
        · refine ⟨?_, ?_, ?_, ?_⟩
          · intro hb
            simp [h2, h3, hb] at h
            simpa using h
          · intro hm
            have hnb : piece.pieceType ≠ PieceType.BOMB := by simp [hm]
            simp [h2, h3, hnb, hm] at h
            exact h
          · intro hf
            have hnb : piece.pieceType ≠ PieceType.BOMB := by simp [hf]
            have hnm : piece.pieceType ≠ PieceType.MINE := by simp [hf]
            simp [h2, h3, hnb, hnm, hf] at h
            exact h
          · intro hnb hnm hnf
            simp [h2, h3, hnb, hnm, hnf] at h
            exact ⟨h, h3⟩

/-- Counterexample for C7 as stated: on an empty setup board,
`can_place_piece` accepts a South General at (16,9), which is the South
Headquarters square (6,4) — an "other kind" on a Headquarters cell. -/
theorem C7_counterexample :
    canPlacePiece (logicOf (boardOf []) .SETUP .PLAYER1) ⟨16, 9⟩
      { pieceType := .GENERAL, player := .PLAYER1 } = true ∧
    cellTypeAt ⟨16, 9⟩ = .HEADQUARTERS := by
  constructor
  · decide
  · decide

/-- Witness for C7: a South Mine accepted at (16,8) indeed stands on one of
the two last local rows. -/
theorem C7_placement_validation_witness :
    canPlacePiece (logicOf (boardOf []) .SETUP .PLAYER1) ⟨16, 8⟩
      { pieceType := .MINE, player := .PLAYER1 } = true ∧
    isLastTwoRows ⟨16, 8⟩ .PLAYER1 = true :=
  ⟨by decide,
   ((C7_placement_validation (logicOf (boardOf []) .SETUP .PLAYER1) ⟨16, 8⟩
      { pieceType := .MINE, player := .PLAYER1 }).1 (by decide)).2.1 rfl⟩

/-! ## Groundwork for the `Board.move_piece` claims -/

@[simp] theorem pieces_setPieceAt (b : Board) (p : Pos) (pc : Option Piece) (q : Pos) :
    (b.setPieceAt p pc).pieces q = if q = p then pc else b.pieces q := rfl

@[simp] theorem pieces_setMarkAt (b : Board) (p : Pos) (m : Option String) (q : Pos) :
    (b.setMarkAt p m).pieces q = b.pieces q := rfl

theorem pieces_ite (c : Prop) [Decidable c] (b1 b2 : Board) (q : Pos) :
    (if c then b1 else b2).pieces q = if c then b1.pieces q else b2.pieces q := by
  split <;> rfl

theorem pieces_reveal (b : Board) (ps : List Player) (q : Pos) :
    (revealFlagsForPlayers b ps).pieces q =
      if onBoard q then
        match b.pieces q with
        | some pc =>
          if pc.isFlag ∧ pc.player ∈ ps then some { pc with visible := true }
          else some pc
        | none => none
      else b.pieces q := rfl

theorem areAllied_self (p : Player) : areAllied p p = true := by
  cases p <;> rfl

/-- A legal move never has equal endpoints (the destination would hold a
piece allied with itself). -/
theorem canMove_from_ne_to {b : Board} {f t : Pos} (h : canMove b f t = true) :
    f ≠ t := by
  intro heq
  subst heq
  cases hp : b.pieces f with
  | none =>
    unfold canMove at h
    cases hc : b.getCell f with
    | none => rw [hc] at h; cases h
    | some c =>
      obtain ⟨hob, hcell⟩ := Board.getCell_some hc
      rw [hc] at h
      subst hcell
      simp [hp] at h
  | some pc =>
    have := canMove_reject b f f
      (Or.inr (Or.inr (Or.inl ⟨pc, pc, hp, hp, areAllied_self _⟩)))
    rw [this] at h
    cases h

/-- The origin piece of a legal move is neither a Mine nor a Flag. -/
theorem canMove_origin {b : Board} {f t : Pos} {a : Piece}
    (h : canMove b f t = true) (ha : b.pieces f = some a) :
    a.pieceType ≠ .MINE ∧ a.pieceType ≠ .FLAG := by
  constructor
  · intro heq
    have := canMove_reject b f t (Or.inl ⟨a, ha, Or.inl heq⟩)
    rw [this] at h
    cases h
  · intro heq
    have := canMove_reject b f t (Or.inl ⟨a, ha, Or.inr heq⟩)
    rw [this] at h
    cases h

/-- A defender that wins (or survives nothing) is never a Flag: a Flag
defender always loses the battle. -/
theorem battle_defenderWins_not_flag {a d : Piece}
    (h : battle a d = .defenderWins) : d.pieceType ≠ .FLAG := by
  intro hf
  unfold battle at h
  simp [Piece.isFlag, hf] at h

theorem battle_bothDie_not_flag {a d : Piece}
    (h : battle a d = .bothDie) : d.pieceType ≠ .FLAG := by
  intro hf
  unfold battle at h
  simp [Piece.isFlag, hf] at h

/-- Winning attack: the destination cell ends up holding the attacker with
the defender's kill count + 1 added to its own. -/
theorem movePiece_attackerWins_at_to {b : Board} {f t : Pos} {a d : Piece}
    (hmv : canMove b f t = true) (ha : b.pieces f = some a) (hd : b.pieces t = some d)
    (hbat : battle a d = .attackerWins) :
    ((b.movePiece f t).2).pieces t =
      some { a with killCount := a.killCount + (d.killCount + 1) } := by
  have hne : f ≠ t := canMove_from_ne_to hmv
  obtain ⟨hnm, hnf⟩ := canMove_origin hmv ha
  unfold Board.movePiece
  rw [if_neg (by simp [hmv])]
  simp only [ha, hd, hbat]
  by_cases hdc : d.pieceType = PieceType.COMMANDER <;>
    simp [hdc, pieces_ite, pieces_reveal, Piece.isFlag, hnf, Ne.symm hne]

/-! ## Claim C8: kill-count inheritance -/

/-- C8.  In every battle resolved by `Board.move_piece`, the winner's
cumulative kill count becomes its own plus the loser's plus one (the winner
"inherits the loser's cumulative kill count + 1" into its lineage), and in a
mutual death both combatants are removed with no kill-count change to any
remaining piece. -/
theorem C8_kill_count (b : Board) (fromPos toPos : Pos) (a d : Piece)
    (hmv : canMove b fromPos toPos = true)
    (ha : b.pieces fromPos = some a) (hd : b.pieces toPos = some d) :
    (battle a d = .attackerWins →
       ((b.movePiece fromPos toPos).2).pieces toPos =
         some { a with killCount := a.killCount + (d.killCount + 1) }) ∧
    (battle a d = .defenderWins →
       ((b.movePiece fromPos toPos).2).pieces toPos =
         some { d with killCount := d.killCount + (a.killCount + 1) }) ∧
    (battle a d = .bothDie →
       ((b.movePiece fromPos toPos).2).pieces fromPos = none ∧
       ((b.movePiece fromPos toPos).2).pieces toPos = none ∧
       ∀ pos, pos ≠ fromPos → pos ≠ toPos →
         Option.map Piece.killCount (((b.movePiece fromPos toPos).2).pieces pos) =
           Option.map Piece.killCount (b.pieces pos)) := by
  have hne : fromPos ≠ toPos := canMove_from_ne_to hmv
  obtain ⟨hnm, hnf⟩ := canMove_origin hmv ha
  refine ⟨?_, ?_, ?_⟩
  · exact fun hbat => movePiece_attackerWins_at_to hmv ha hd hbat
  · intro hbat
    have hdnf : d.pieceType ≠ PieceType.FLAG := battle_defenderWins_not_flag hbat
    unfold Board.movePiece
    rw [if_neg (by simp [hmv])]
    simp only [ha, hd, hbat]
    by_cases hac : a.pieceType = PieceType.COMMANDER <;>
      simp [hac, pieces_ite, pieces_reveal, Piece.isFlag, hdnf, Ne.symm hne]
  · intro hbat
    unfold Board.movePiece
    rw [if_neg (by simp [hmv])]
    simp only [ha, hd, hbat]
    refine ⟨?_, ?_, ?_⟩
    · by_cases hac : a.pieceType = PieceType.COMMANDER <;>
        by_cases hdc : d.pieceType = PieceType.COMMANDER <;>
        simp [hac, hdc, pieces_ite, pieces_reveal, hne]
    · by_cases hac : a.pieceType = PieceType.COMMANDER <;>
        by_cases hdc : d.pieceType = PieceType.COMMANDER <;>
        simp [hac, hdc, pieces_ite, pieces_reveal, Ne.symm hne]
    · intro pos hpf hpt
      by_cases hac : a.pieceType = PieceType.COMMANDER <;>
        by_cases hdc : d.pieceType = PieceType.COMMANDER <;>
        · simp only [hac, hdc, pieces_ite, pieces_setPieceAt, pieces_setMarkAt,
            pieces_reveal, ite_self, if_neg hpf, if_neg hpt]
          cases hp : b.pieces pos with
          | none => simp
          | some pc =>
            by_cases hob : onBoard pos = true <;>
              simp [hob] <;> split <;> simp

/-- Witness for C8: a South Brigade captures a West Regiment on the adjacent
square and ends with kill count 0 + (0 + 1). -/
theorem C8_kill_count_witness :
    ((boardOf [(⟨16, 8⟩, { pieceType := .BRIGADE, player := .PLAYER1 }),
               (⟨15, 8⟩, { pieceType := .REGIMENT, player := .PLAYER2 })]).movePiece
        ⟨16, 8⟩ ⟨15, 8⟩).2.pieces ⟨15, 8⟩ =
      some { pieceType := .BRIGADE, player := .PLAYER1, visible := false,
             killCount := 0 + (0 + 1), pieceId := none } :=
  (C8_kill_count
    (boardOf [(⟨16, 8⟩, { pieceType := .BRIGADE, player := .PLAYER1 }),
              (⟨15, 8⟩, { pieceType := .REGIMENT, player := .PLAYER2 })])
    ⟨16, 8⟩ ⟨15, 8⟩
    { pieceType := .BRIGADE, player := .PLAYER1 }
    { pieceType := .REGIMENT, player := .PLAYER2 }
    (by decide) (by decide) (by decide)).1 (by decide)

/-! ## Claim C9: a Commander's death reveals its seat's Flag -/

/-- Any flag of a listed player found on the board after
`_reveal_flags_for_players` is visible. -/
theorem reveal_flag_visible (b : Board) (ps : List Player) (pos : Pos) (q : Piece)
    (hob : onBoard pos = true)
    (hq : (revealFlagsForPlayers b ps).pieces pos = some q)
    (hflag : q.pieceType = .FLAG) (hmem : q.player ∈ ps) : q.visible = true := by
  rw [pieces_reveal] at hq
  rw [if_pos (by simp [hob])] at hq
  cases hp : b.pieces pos with
  | none =>
    simp only [hp] at hq
    exact Option.noConfusion hq
  | some pc =>
    simp only [hp] at hq
    by_cases hcond : pc.isFlag = true ∧ pc.player ∈ ps
    · rw [if_pos (by exact ⟨hcond.1, hcond.2⟩)] at hq
      cases hq
      rfl
    · rw [if_neg (by simpa using hcond)] at hq
      cases hq
      exact absurd ⟨by simp [Piece.isFlag, hflag], hmem⟩ hcond

/-- C9.  In every `Board.move_piece` battle in which a seat's Commander dies
(as the attacker, as the defender, or in a mutual death), every Flag of that
seat on the resulting board is visible as soon as the call returns; in a
mutual death of two Commanders this holds for both seats at once. -/
theorem C9_commander_death_reveals_flag (b : Board) (fromPos toPos : Pos) (a d : Piece)
    (hmv : canMove b fromPos toPos = true)
    (ha : b.pieces fromPos = some a) (hd : b.pieces toPos = some d) :
    (a.pieceType = .COMMANDER →
       (battle a d = .defenderWins ∨ battle a d = .bothDie) →
       ∀ pos q, onBoard pos = true →
         ((b.movePiece fromPos toPos).2).pieces pos = some q →
         q.pieceType = .FLAG → q.player = a.player → q.visible = true) ∧
    (d.pieceType = .COMMANDER →
       (battle a d = .attackerWins ∨ battle a d = .bothDie) →
       ∀ pos q, onBoard pos = true →
         ((b.movePiece fromPos toPos).2).pieces pos = some q →
         q.pieceType = .FLAG → q.player = d.player → q.visible = true) := by
  constructor
  · intro hacom hbat pos q hob hq hflag hpl
    rcases hbat with hbat | hbat
    · unfold Board.movePiece at hq
      rw [if_neg (by simp [hmv])] at hq
      simp only [ha, hd, hbat] at hq
      simp [hacom, pieces_ite] at hq
      exact reveal_flag_visible _ _ _ _ hob hq hflag (by simp [hpl])
    · unfold Board.movePiece at hq
      rw [if_neg (by simp [hmv])] at hq
      simp only [ha, hd, hbat] at hq
      by_cases hdc : d.pieceType = PieceType.COMMANDER
      · simp [hacom, hdc, pieces_ite] at hq
        exact reveal_flag_visible _ _ _ _ hob hq hflag (by simp [hpl])
      · simp [hacom, hdc, pieces_ite] at hq
        exact reveal_flag_visible _ _ _ _ hob hq hflag (by simp [hpl])
  · intro hdcom hbat pos q hob hq hflag hpl
    rcases hbat with hbat | hbat
    · unfold Board.movePiece at hq
      rw [if_neg (by simp [hmv])] at hq
      simp only [ha, hd, hbat] at hq
      simp [hdcom, pieces_ite] at hq
      exact reveal_flag_visible _ _ _ _ hob hq hflag (by simp [hpl])
    · unfold Board.movePiece at hq
      rw [if_neg (by simp [hmv])] at hq
      simp only [ha, hd, hbat] at hq
      by_cases hac : a.pieceType = PieceType.COMMANDER
      · simp [hdcom, hac, pieces_ite] at hq
        exact reveal_flag_visible _ _ _ _ hob hq hflag (by simp [hpl])
      · simp [hdcom, hac, pieces_ite] at hq
        exact reveal_flag_visible _ _ _ _ hob hq hflag (by simp [hpl])

/-- Witness for C9: two Commanders die in a mutual collision and the South
flag in the South headquarters ends up visible. -/
theorem C9_commander_death_reveals_flag_witness :
    ((boardOf [(⟨16, 8⟩, { pieceType := .COMMANDER, player := .PLAYER1 }),
               (⟨15, 8⟩, { pieceType := .COMMANDER, player := .PLAYER2 }),
               (⟨16, 7⟩, { pieceType := .FLAG, player := .PLAYER1 }),
               (⟨7, 0⟩, { pieceType := .FLAG, player := .PLAYER2 })]).movePiece
        ⟨16, 8⟩ ⟨15, 8⟩).2.pieces ⟨16, 7⟩ =
      some { pieceType := .FLAG, player := .PLAYER1, visible := true } ∧
    ({ pieceType := .FLAG, player := .PLAYER1, visible := true } : Piece).visible = true :=
  ⟨by decide,
   (C9_commander_death_reveals_flag
      (boardOf [(⟨16, 8⟩, { pieceType := .COMMANDER, player := .PLAYER1 }),
                (⟨15, 8⟩, { pieceType := .COMMANDER, player := .PLAYER2 }),
                (⟨16, 7⟩, { pieceType := .FLAG, player := .PLAYER1 }),
                (⟨7, 0⟩, { pieceType := .FLAG, player := .PLAYER2 })])
      ⟨16, 8⟩ ⟨15, 8⟩
      { pieceType := .COMMANDER, player := .PLAYER1 }
      { pieceType := .COMMANDER, player := .PLAYER2 }
      (by decide) (by decide) (by decide)).1 rfl (Or.inr (by decide))
     ⟨16, 7⟩ { pieceType := .FLAG, player := .PLAYER1, visible := true }
     (by decide) (by decide) rfl rfl⟩

/-! ## Claim C3: capturing a Flag force-eliminates its owner -/

/-- Every position of `allPositions` is a board cell. -/
theorem mem_allPositions_onBoard : ∀ p ∈ allPositions, onBoard p = true := by decide

/-- A player owns no piece on any board cell. -/
def noPiecesOf (b : Board) (p : Player) : Prop :=
  ∀ pos ∈ allPositions, ∀ q, b.pieces pos = some q → q.player ≠ p

theorem noPiecesOf_clear_self (b : Board) (p : Player) :
    noPiecesOf (clearPlayerPiecesOnBoard b p) p := by
  intro pos hpos q hq
  have hob := mem_allPositions_onBoard pos hpos
  unfold clearPlayerPiecesOnBoard at hq
  simp only at hq
  rw [if_pos (by simp [hob])] at hq
  cases hp : b.pieces pos with
  | none =>
    simp only [hp] at hq
    exact Option.noConfusion hq
  | some pc =>
    simp only [hp] at hq
    by_cases hpp : pc.player = p
    · rw [if_pos hpp] at hq
      exact Option.noConfusion hq
    · rw [if_neg hpp] at hq
      injection hq with hq2
      subst hq2
      exact hpp

theorem noPiecesOf_clear_mono (b : Board) (p r : Player) (h : noPiecesOf b p) :
    noPiecesOf (clearPlayerPiecesOnBoard b r) p := by
  intro pos hpos q hq
  unfold clearPlayerPiecesOnBoard at hq
  simp only at hq
  by_cases hob : onBoard pos = true
  · rw [if_pos (by simp [hob])] at hq
    cases hp : b.pieces pos with
    | none =>
      simp only [hp] at hq
      exact Option.noConfusion hq
    | some pc =>
      simp only [hp] at hq
      by_cases hpr : pc.player = r
      · rw [if_pos hpr] at hq
        exact Option.noConfusion hq
      · rw [if_neg hpr] at hq
        injection hq with hq2
        subst hq2
        exact h pos hpos pc hp
  · rw [if_neg (by simp [hob])] at hq
    exact h pos hpos q hq

theorem mem_elimInsert_self (s : List Player) (p : Player) : p ∈ elimInsert s p := by
  unfold elimInsert
  by_cases h : p ∈ s
  · rwa [if_pos h]
  · rw [if_neg h]
    exact List.mem_cons_self _ _

theorem mem_elimInsert_mono (s : List Player) (p r : Player) (h : p ∈ s) :
    p ∈ elimInsert s r := by
  unfold elimInsert
  split
  · exact h
  · exact List.mem_cons_of_mem _ h

/-- One `_ensure_elimination_status` step keeps an already-eliminated,
already-cleared player eliminated and cleared. -/
theorem ensureStep_preserves (remaining : Player → Nat) (acc : GameLogic)
    (r p : Player) (h : p ∈ acc.eliminatedPlayers ∧ noPiecesOf acc.board p) :
    p ∈ (ensureStep remaining acc r).eliminatedPlayers ∧
      noPiecesOf (ensureStep remaining acc r).board p := by
  unfold ensureStep
  split
  · split
    · exact h
    · exact ⟨mem_elimInsert_mono _ _ _ h.1, noPiecesOf_clear_mono _ _ _ h.2⟩
  · split
    · split
      · exact h
      · exact ⟨mem_elimInsert_mono _ _ _ h.1, noPiecesOf_clear_mono _ _ _ h.2⟩
    · exact h

theorem ensureFold_preserves (remaining : Player → Nat) (l : List Player)
    (st : GameLogic) (p : Player)
    (h : p ∈ st.eliminatedPlayers ∧ noPiecesOf st.board p) :
    p ∈ (l.foldl (ensureStep remaining) st).eliminatedPlayers ∧
      noPiecesOf (l.foldl (ensureStep remaining) st).board p := by
  induction l generalizing st with
  | nil => exact h
  | cons r l ih => exact ih _ (ensureStep_preserves remaining st r p h)

theorem ensure_preserves (st : GameLogic) (p : Player)
    (h : p ∈ st.eliminatedPlayers ∧ noPiecesOf st.board p) :
    p ∈ (ensureEliminationStatus st).eliminatedPlayers ∧
      noPiecesOf (ensureEliminationStatus st).board p :=
  ensureFold_preserves _ playerList st p h

/-- `_next_turn` changes only the current player or the phase. -/
theorem nextTurn_elim_board (st : GameLogic) :
    (st.nextTurn).eliminatedPlayers = st.eliminatedPlayers ∧
      (st.nextTurn).board = st.board := by
  unfold GameLogic.nextTurn
  split
  · exact ⟨rfl, rfl⟩
  · split
    · exact ⟨rfl, rfl⟩
    · exact ⟨rfl, rfl⟩

/-- A Flag defender always loses the battle. -/
theorem battle_flag {a d : Piece} (hf : d.pieceType = .FLAG) :
    battle a d = .attackerWins := by
  unfold battle
  simp [Piece.isFlag, hf]

/-- A legal move starts and ends on board cells. -/
theorem canMove_onBoard {b : Board} {f t : Pos} (h : canMove b f t = true) :
    onBoard f = true ∧ onBoard t = true := by
  unfold canMove at h
  cases hf : b.getCell f with
  | none => rw [hf] at h; cases h
  | some fc =>
    cases ht : b.getCell t with
    | none => rw [hf, ht] at h; cases h
    | some tc =>
      exact ⟨(Board.getCell_some hf).1, (Board.getCell_some ht).1⟩

/-- A legal move has a piece at the origin. -/
theorem canMove_exists_piece {b : Board} {f t : Pos} (h : canMove b f t = true) :
    ∃ a, b.pieces f = some a := by
  unfold canMove at h
  cases hf : b.getCell f with
  | none => rw [hf] at h; cases h
  | some fc =>
    cases ht : b.getCell t with
    | none => rw [hf, ht] at h; cases h
    | some tc =>
      obtain ⟨hob, hcell⟩ := Board.getCell_some hf
      rw [hf, ht] at h
      subst hcell
      cases hp : b.pieces f with
      | none => simp [hp] at h
      | some a => exact ⟨a, rfl⟩

/-- `Board.move_piece` succeeds only on a legal move. -/
theorem movePiece_true_canMove {b : Board} {f t : Pos}
    (h : (b.movePiece f t).1 = true) : canMove b f t = true := by
  cases hcm : canMove b f t
  · rw [Board.movePiece.eq_def, hcm] at h
    simp at h
  · rfl

/-- C3.  If a successful `GameLogic.move_piece` call captures a seat's Flag
(the destination held that seat's Flag before the call), then on return that
seat is in the eliminated set and no board cell holds any piece of that
seat. -/
theorem C3_flag_capture_eliminates (st : GameLogic) (fromPos toPos : Pos) (d : Piece)
    (hd : st.board.pieces toPos = some d) (hflag : d.pieceType = .FLAG)
    (hres : (st.movePiece fromPos toPos).1 = true) :
    d.player ∈ (st.movePiece fromPos toPos).2.eliminatedPlayers ∧
      noPiecesOf (st.movePiece fromPos toPos).2.board d.player := by
  unfold GameLogic.movePiece at hres ⊢
  by_cases hgs : st.gameState ≠ GState.PLAYING
  · rw [if_pos hgs] at hres
    exact absurd hres (by simp)
  rw [if_neg hgs] at hres ⊢
  cases hfc : st.board.getCell fromPos with
  | none =>
    rw [hfc] at hres
    exact absurd hres (by simp)
  | some fromCell =>
    obtain ⟨hobf, hcell⟩ := Board.getCell_some hfc
    subst hcell
    simp only [hfc] at hres ⊢
    cases hpm : st.board.pieces fromPos with
    | none =>
      simp only [hpm] at hres
      exact absurd hres (by simp)
    | some movingPiece =>
      simp only [hpm] at hres ⊢
      by_cases hown : ¬ st.testingMode = true ∧ movingPiece.player ≠ st.currentPlayer
      · rw [if_pos hown] at hres
        exact absurd hres (by simp)
      · rw [if_neg hown] at hres ⊢
        cases hm : (st.board.movePiece fromPos toPos).1 with
        | false =>
          simp only [hm] at hres
          simp at hres
        | true =>
          have hcm : canMove st.board fromPos toPos = true := movePiece_true_canMove hm
          obtain ⟨hobF, hobT⟩ := canMove_onBoard hcm
          have hbat : battle movingPiece d = BattleOutcome.attackerWins := battle_flag hflag
          have hwin := movePiece_attackerWins_at_to hcm hpm hd hbat
          obtain ⟨hmnm, hmnf⟩ := canMove_origin hcm hpm
          simp only [hm, Board.getCell, hobT, hd, hwin, Piece.isFlag, hflag, hmnf,
            if_true, decide_eq_true_eq, decide_False, if_false, Bool.true_eq_false,
            Bool.false_eq_true, decide_True, ite_self, not_true, eq_self_iff_true] at hres ⊢
          obtain ⟨hmemE, hnpE⟩ := ensure_preserves
            { board := clearPlayerPiecesOnBoard (st.board.movePiece fromPos toPos).2 d.player,
              gameState := st.gameState, currentPlayer := st.currentPlayer,
              setupComplete := st.setupComplete,
              eliminatedPlayers := elimInsert st.eliminatedPlayers d.player,
              testingMode := st.testingMode, history := st.history } d.player
            ⟨mem_elimInsert_self _ _, noPiecesOf_clear_self _ _⟩
          constructor
          · split
            · exact hmemE
            · rw [(nextTurn_elim_board _).1]
              exact hmemE
          · split
            · exact hnpE
            · rw [(nextTurn_elim_board _).2]
              exact hnpE

/-- Witness for C3: a South Brigade captures the West Flag sitting in the
South headquarters cell; West ends up eliminated. -/
theorem C3_flag_capture_eliminates_witness :
    Player.PLAYER2 ∈
      ((logicOf (boardOf [(⟨15, 7⟩, { pieceType := .BRIGADE, player := .PLAYER1 }),
                          (⟨16, 7⟩, { pieceType := .FLAG, player := .PLAYER2 })])
          .PLAYING .PLAYER1).movePiece ⟨15, 7⟩ ⟨16, 7⟩).2.eliminatedPlayers :=
  (C3_flag_capture_eliminates
    (logicOf (boardOf [(⟨15, 7⟩, { pieceType := .BRIGADE, player := .PLAYER1 }),
                       (⟨16, 7⟩, { pieceType := .FLAG, player := .PLAYER2 })])
       .PLAYING .PLAYER1)
    ⟨15, 7⟩ ⟨16, 7⟩ { pieceType := .FLAG, player := .PLAYER2 }
    (by decide) rfl (by decide)).1

/-! ## Claim C10: eliminated seats own no pieces (reachability invariant) -/

/-- Coordinate bounds of board cells. -/
theorem onBoard_row_col_range (p : Pos) (h : onBoard p = true) :
    0 ≤ p.row ∧ p.row ≤ 16 ∧ 0 ≤ p.col ∧ p.col ≤ 16 := by
  unfold onBoard isCenterCellPos areaOf at h
  rcases Bool.or_eq_true_iff.mp h with h | h
  · simp only [decide_eq_true_eq] at h
    omega
  · split_ifs at h with h1 h2 h3 h4
    · omega
    · omega
    · omega
    · omega
    · simp at h

/-- Every board cell is listed in `allPositions`. -/
theorem onBoard_mem_allPositions (p : Pos) (h : onBoard p = true) :
    p ∈ allPositions := by
  obtain ⟨h1, h2, h3, h4⟩ := onBoard_row_col_range p h
  have hp : p = ⟨(p.row.toNat : Int), (p.col.toNat : Int)⟩ := by
    cases p with
    | mk r c =>
      simp only [Pos.mk.injEq]
      constructor
      · exact (Int.toNat_of_nonneg h1).symm
      · exact (Int.toNat_of_nonneg h3).symm
  unfold allPositions
  rw [List.mem_flatMap]
  refine ⟨p.row.toNat, by rw [List.mem_range]; omega, ?_⟩
  rw [List.mem_filterMap]
  refine ⟨(p.col.toNat : Int), ?_, ?_⟩
  · simp
    exact ⟨p.col.toNat, by omega, by omega⟩
  · simp only
    rw [← hp]
    simp [h]

/-- Flag reveal preserves each cell's owner and kind. -/
theorem reveal_player_preserve {b : Board} {ps : List Player} {pos : Pos} {q : Piece}
    (hq : (revealFlagsForPlayers b ps).pieces pos = some q) :
    ∃ q0, b.pieces pos = some q0 ∧ q0.player = q.player ∧ q0.pieceType = q.pieceType := by
  rw [pieces_reveal] at hq
  by_cases hob : onBoard pos = true
  · rw [if_pos (by simp [hob])] at hq
    cases hp : b.pieces pos with
    | none =>
      simp only [hp] at hq
      exact Option.noConfusion hq
    | some pc =>
      simp only [hp] at hq
      split_ifs at hq
      · injection hq with hq2
        subst hq2
        exact ⟨pc, rfl, rfl, rfl⟩
      · injection hq with hq2
        subst hq2
        exact ⟨pc, rfl, rfl, rfl⟩
  · rw [if_neg (by simp [hob])] at hq
    exact ⟨q, hq, rfl, rfl⟩

theorem ite_reveal_player {c : Prop} [Decidable c] {B : Board} {ps : List Player}
    {pos : Pos} {q : Piece}
    (hq : (if c then B else revealFlagsForPlayers B ps).pieces pos = some q) :
    ∃ q0, B.pieces pos = some q0 ∧ q0.player = q.player ∧ q0.pieceType = q.pieceType := by
  split at hq
  · exact ⟨q, hq, rfl, rfl⟩
  · exact reveal_player_preserve hq

/-- Every piece on the board after `Board.move_piece` is owned by the owner
of a piece that was already on the board: the mover, the defender, or the
piece previously on the same cell. -/
theorem movePiece_player_origin {b : Board} {f t pos : Pos} {q : Piece}
    (hq : ((b.movePiece f t).2).pieces pos = some q) :
    (∃ q0, b.pieces f = some q0 ∧ q0.player = q.player) ∨
    (∃ q0, b.pieces t = some q0 ∧ q0.player = q.player) ∨
    (∃ q0, b.pieces pos = some q0 ∧ q0.player = q.player) := by
  by_cases hcm : canMove b f t = true
  · unfold Board.movePiece at hq
    rw [if_neg (by simp [hcm])] at hq
    cases hpf : b.pieces f with
    | none =>
      simp only [hpf] at hq
      exact Or.inr (Or.inr ⟨q, hq, rfl⟩)
    | some moving =>
      simp only [hpf] at hq
      cases hpt : b.pieces t with
      | none =>
        simp only [hpt] at hq
        simp only [pieces_ite, pieces_setPieceAt, pieces_setMarkAt, ite_self] at hq
        split_ifs at hq <;>
          first
            | exact Option.noConfusion hq
            | (injection hq with hq2
               exact Or.inl ⟨moving, rfl, by rw [hq2]⟩)
            | exact Or.inr (Or.inr ⟨q, hq, rfl⟩)
      | some target =>
        simp only [hpt] at hq
        cases hbat : battle moving target with
        | attackerWins =>
          simp only [hbat] at hq
          obtain ⟨q0, hq0, hpl, _⟩ := ite_reveal_player hq
          simp only [pieces_ite, pieces_setPieceAt, pieces_setMarkAt, ite_self] at hq0
          split_ifs at hq0 <;>
            first
              | exact Option.noConfusion hq0
              | (injection hq0 with hq2
                 exact Or.inl ⟨moving, rfl, by rw [← hpl, ← hq2]⟩)
              | exact Or.inr (Or.inr ⟨q0, hq0, hpl⟩)
        | defenderWins =>
          simp only [hbat] at hq
          obtain ⟨q0, hq0, hpl, _⟩ := ite_reveal_player hq
          simp only [pieces_ite, pieces_setPieceAt, pieces_setMarkAt, ite_self] at hq0
          split_ifs at hq0 <;>
            first
              | exact Option.noConfusion hq0
              | (injection hq0 with hq2
                 exact Or.inr (Or.inl ⟨target, rfl, by rw [← hpl, ← hq2]⟩))
              | exact Or.inr (Or.inr ⟨q0, hq0, hpl⟩)
        | bothDie =>
          simp only [hbat] at hq
          obtain ⟨q0, hq0, hpl, _⟩ := ite_reveal_player hq
          simp only [pieces_ite, pieces_setPieceAt, pieces_setMarkAt, ite_self] at hq0
          split_ifs at hq0 <;>
            first
              | exact Option.noConfusion hq0
              | exact Or.inr (Or.inr ⟨q0, hq0, hpl⟩)
  · unfold Board.movePiece at hq
    rw [if_pos (by simp [hcm])] at hq
    exact Or.inr (Or.inr ⟨q, hq, rfl⟩)

/-- `Board.move_piece` cannot give pieces to a player who has none. -/
theorem noPiecesOf_movePiece {b : Board} {f t : Pos} {p : Player}
    (h : noPiecesOf b p) : noPiecesOf (b.movePiece f t).2 p := by
  by_cases hcm : canMove b f t = true
  · intro pos hpos q hq hqp
    obtain ⟨hobF, hobT⟩ := canMove_onBoard hcm
    rcases movePiece_player_origin hq with ⟨q0, h0, hpl⟩ | ⟨q0, h0, hpl⟩ | ⟨q0, h0, hpl⟩
    · exact h f (onBoard_mem_allPositions f hobF) q0 h0 (hpl.trans hqp)
    · exact h t (onBoard_mem_allPositions t hobT) q0 h0 (hpl.trans hqp)
    · exact h pos hpos q0 h0 (hpl.trans hqp)
  · intro pos hpos q hq
    unfold Board.movePiece at hq
    rw [if_pos (by simp [hcm])] at hq
    exact h pos hpos q hq

/-- Each eliminated player owns no board piece. -/
def elimInvariant (st : GameLogic) : Prop :=
  ∀ p ∈ st.eliminatedPlayers, noPiecesOf st.board p

/-- The inductive invariant: during setup nobody is eliminated, and every
eliminated player owns no board piece. -/
def stateInv (st : GameLogic) : Prop :=
  (st.gameState = .SETUP → st.eliminatedPlayers = []) ∧ elimInvariant st

theorem mem_elimInsert_iff (s : List Player) (p r : Player) :
    p ∈ elimInsert s r ↔ p = r ∨ p ∈ s := by
  unfold elimInsert
  split
  · constructor
    · exact fun h => Or.inr h
    · rintro (rfl | h)
      · assumption
      · exact h
  · rw [List.mem_cons]

/-- After inserting a loser and clearing its pieces, the elimination
invariant still holds. -/
theorem elimInv_clear_insert (s : List Player) (b0 : Board) (loser : Player)
    (h : ∀ p ∈ s, noPiecesOf b0 p) :
    ∀ p ∈ elimInsert s loser, noPiecesOf (clearPlayerPiecesOnBoard b0 loser) p := by
  intro p hp
  rcases (mem_elimInsert_iff s p loser).mp hp with rfl | hp2
  · exact noPiecesOf_clear_self _ _
  · exact noPiecesOf_clear_mono _ _ _ (h p hp2)

theorem ensureStep_elimInv (remaining : Player → Nat) (acc : GameLogic) (r : Player)
    (h : elimInvariant acc) : elimInvariant (ensureStep remaining acc r) := by
  unfold ensureStep
  split
  · split
    · exact h
    · exact elimInv_clear_insert _ _ _ h
  · split
    · split
      · exact h
      · exact elimInv_clear_insert _ _ _ h
    · exact h

theorem ensureFold_elimInv (remaining : Player → Nat) (l : List Player)
    (st : GameLogic) (h : elimInvariant st) :
    elimInvariant (l.foldl (ensureStep remaining) st) := by
  induction l generalizing st with
  | nil => exact h
  | cons r l ih => exact ih _ (ensureStep_elimInv remaining st r h)

theorem ensure_elimInv (st : GameLogic) (h : elimInvariant st) :
    elimInvariant (ensureEliminationStatus st) :=
  ensureFold_elimInv _ playerList st h

theorem ensureStep_gameState (remaining : Player → Nat) (acc : GameLogic) (r : Player) :
    (ensureStep remaining acc r).gameState = acc.gameState := by
  unfold ensureStep
  split
  · split
    · rfl
    · rfl
  · split
    · split
      · rfl
      · rfl
    · rfl

theorem ensureFold_gameState (remaining : Player → Nat) (l : List Player) (st : GameLogic) :
    (l.foldl (ensureStep remaining) st).gameState = st.gameState := by
  induction l generalizing st with
  | nil => rfl
  | cons r l ih => rw [List.foldl_cons, ih, ensureStep_gameState]

theorem ensure_gameState (st : GameLogic) :
    (ensureEliminationStatus st).gameState = st.gameState :=
  ensureFold_gameState _ playerList st

theorem nextTurn_gameState (st : GameLogic) :
    (st.nextTurn).gameState = st.gameState ∨ (st.nextTurn).gameState = .FINISHED := by
  unfold GameLogic.nextTurn
  split
  · exact Or.inr rfl
  · split
    · exact Or.inl rfl
    · exact Or.inr rfl

theorem stateInv_placePiece (st : GameLogic) (pos : Pos) (piece : Piece)
    (h : stateInv st) : stateInv (st.placePiece pos piece).2 := by
  unfold GameLogic.placePiece
  by_cases h1 : st.gameState ≠ GState.SETUP
  · rw [if_pos h1]
    exact h
  · rw [if_neg h1]
    push_neg at h1
    have helim := h.1 h1
    by_cases h2 : ¬ canPlacePiece st pos piece = true
    · rw [if_pos h2]
      exact h
    · rw [if_neg h2]
      refine ⟨fun _ => helim, fun p hp => ?_⟩
      have hp2 : p ∈ st.eliminatedPlayers := hp
      rw [helim] at hp2
      exact absurd hp2 (by simp)

theorem stateInv_startGame (st : GameLogic) (chosen : Player)
    (h : stateInv st) : stateInv (st.startGame chosen).2 := by
  unfold GameLogic.startGame
  split
  · exact h
  · exact ⟨fun _ => rfl, fun p hp => absurd hp (by simp)⟩

theorem stateInv_skipTurn (st : GameLogic) (h : stateInv st) :
    stateInv (st.skipTurn).2 := by
  unfold GameLogic.skipTurn
  split
  · exact h
  · rename_i h1
    push_neg at h1
    refine ⟨fun hgs => ?_, fun p hp => ?_⟩
    · rcases nextTurn_gameState st with he | he
      · have h3 : st.gameState = GState.SETUP := he.symm.trans hgs
        rw [h1] at h3
        exact GState.noConfusion h3
      · have h3 : GState.FINISHED = GState.SETUP := he.symm.trans hgs
        exact GState.noConfusion h3
    · have hp2 : p ∈ st.eliminatedPlayers := by
        have := (nextTurn_elim_board st).1
        rw [← this]
        exact hp
      show noPiecesOf (st.nextTurn).board p
      rw [(nextTurn_elim_board st).2]
      exact h.2 p hp2

/-- The common tail of `surrender` and `move_piece`: after
`_ensure_elimination_status`, finishing the game or rotating the turn and
replacing the history preserves the state invariant, provided the input
state was in the Playing phase with its elimination invariant intact. -/
theorem stateInv_finalize (C : Prop) [Decidable C] (Y : GameLogic)
    (hist : List MoveRecord) (hgs : Y.gameState = GState.PLAYING)
    (hinv : elimInvariant Y) :
    stateInv { (if C then { ensureEliminationStatus Y with gameState := GState.FINISHED }
                else (ensureEliminationStatus Y).nextTurn) with history := hist } := by
  by_cases hc : C
  · rw [if_pos hc]
    exact ⟨fun hs => GState.noConfusion hs, fun p hp => ensure_elimInv Y hinv p hp⟩
  · rw [if_neg hc]
    refine ⟨fun hs => ?_, fun p hp => ?_⟩
    · have hs2 : (ensureEliminationStatus Y).nextTurn.gameState = GState.SETUP := hs
      rcases nextTurn_gameState (ensureEliminationStatus Y) with he | he
      · have h3 : (ensureEliminationStatus Y).gameState = GState.SETUP := he.symm.trans hs2
        rw [ensure_gameState, hgs] at h3
        exact GState.noConfusion h3
      · rw [he] at hs2
        exact GState.noConfusion hs2
    · have hp2 : p ∈ (ensureEliminationStatus Y).nextTurn.eliminatedPlayers := hp
      rw [(nextTurn_elim_board _).1] at hp2
      show noPiecesOf (ensureEliminationStatus Y).nextTurn.board p
      rw [(nextTurn_elim_board _).2]
      exact ensure_elimInv Y hinv p hp2

/-- `surrender` without finishing: plain record form of the same tail. -/
theorem stateInv_finalizeNoHist (C : Prop) [Decidable C] (Y : GameLogic)
    (hgs : Y.gameState = GState.PLAYING) (hinv : elimInvariant Y) :
    stateInv (if C then { ensureEliminationStatus Y with gameState := GState.FINISHED }
              else (ensureEliminationStatus Y).nextTurn) := by
  by_cases hc : C
  · rw [if_pos hc]
    exact ⟨fun hs => GState.noConfusion hs, fun p hp => ensure_elimInv Y hinv p hp⟩
  · rw [if_neg hc]
    refine ⟨fun hs => ?_, fun p hp => ?_⟩
    · rcases nextTurn_gameState (ensureEliminationStatus Y) with he | he
      · have h3 : (ensureEliminationStatus Y).gameState = GState.SETUP := he.symm.trans hs
        rw [ensure_gameState, hgs] at h3
        exact GState.noConfusion h3
      · have hs2 : (ensureEliminationStatus Y).nextTurn.gameState = GState.SETUP := hs
        rw [he] at hs2
        exact GState.noConfusion hs2
    · have hp2 : p ∈ (ensureEliminationStatus Y).eliminatedPlayers := by
        rw [← (nextTurn_elim_board _).1]
        exact hp
      show noPiecesOf (ensureEliminationStatus Y).nextTurn.board p
      rw [(nextTurn_elim_board _).2]
      exact ensure_elimInv Y hinv p hp2

theorem stateInv_surrender (st : GameLogic) (h : stateInv st) :
    stateInv (st.surrender).2 := by
  unfold GameLogic.surrender
  split
  · exact h
  · rename_i h1
    push_neg at h1
    have hinv2 : elimInvariant
        { st with
          board := clearPlayerPiecesOnBoard st.board st.currentPlayer,
          eliminatedPlayers := elimInsert st.eliminatedPlayers st.currentPlayer } :=
      elimInv_clear_insert st.eliminatedPlayers st.board st.currentPlayer h.2
    dsimp only
    split
    · exact ⟨fun hs => GState.noConfusion hs,
        fun p hp => ensure_elimInv _ hinv2 p hp⟩
    · rename_i hc
      set Y : GameLogic :=
        { st with
          board := clearPlayerPiecesOnBoard st.board st.currentPlayer,
          eliminatedPlayers := elimInsert st.eliminatedPlayers st.currentPlayer } with hY
      refine ⟨fun hs => ?_, fun p hp => ?_⟩
      · rcases nextTurn_gameState (ensureEliminationStatus Y) with he | he
        · have h3 := he.symm.trans hs
          rw [ensure_gameState] at h3
          have h4 : st.gameState = GState.SETUP := h3
          rw [h1] at h4
          exact GState.noConfusion h4
        · have h3 := he.symm.trans hs
          exact GState.noConfusion h3
      · have hp2 : p ∈ (ensureEliminationStatus Y).eliminatedPlayers := by
          rw [← (nextTurn_elim_board (ensureEliminationStatus Y)).1]
          exact hp
        show noPiecesOf (ensureEliminationStatus Y).nextTurn.board p
        rw [(nextTurn_elim_board (ensureEliminationStatus Y)).2]
        exact ensure_elimInv Y hinv2 p hp2

theorem stateInv_movePiece (st : GameLogic) (f t : Pos) (h : stateInv st) :
    stateInv (st.movePiece f t).2 := by
  unfold GameLogic.movePiece
  by_cases hgs : st.gameState ≠ GState.PLAYING
  · rw [if_pos hgs]
    exact h
  rw [if_neg hgs]
  push_neg at hgs
  cases hfc : st.board.getCell f with
  | none => exact h
  | some fromCell =>
    obtain ⟨hobf, hcell⟩ := Board.getCell_some hfc
    subst hcell
    simp only
    cases hpm : st.board.pieces f with
    | none => exact h
    | some movingPiece =>
      simp only
      by_cases hown : ¬ st.testingMode = true ∧ movingPiece.player ≠ st.currentPlayer
      · rw [if_pos hown]
        exact h
      · rw [if_neg hown]
        dsimp only
        cases hm : (st.board.movePiece f t).1 with
        | false =>
          rw [if_pos (by simp)]
          exact h
        | true =>
          rw [if_neg (by simp)]
          refine stateInv_finalize _ _ _ ?_ ?_
          · split
            · exact hgs
            · split
              · exact hgs
              · exact hgs
          · split
            · intro p hp
              exact noPiecesOf_movePiece (h.2 p hp)
            · split
              · intro p hp
                exact elimInv_clear_insert _ _ _
                  (fun r hr => noPiecesOf_movePiece (h.2 r hr)) p hp
              · intro p hp
                exact noPiecesOf_movePiece (h.2 p hp)

/-- States reachable from game start by the public `GameLogic` operations.
The initial state is over-approximated: any state whose eliminated set is
empty (as the constructor leaves it) is admitted as a start state. -/
inductive Reachable : GameLogic → Prop where
  | init (st : GameLogic) (h : st.eliminatedPlayers = []) : Reachable st
  | placePieceStep (st : GameLogic) (pos : Pos) (piece : Piece)
      (h : Reachable st) : Reachable (st.placePiece pos piece).2
  | startGameStep (st : GameLogic) (chosen : Player) (h : Reachable st) :
      Reachable (st.startGame chosen).2
  | movePieceStep (st : GameLogic) (f t : Pos) (h : Reachable st) :
      Reachable (st.movePiece f t).2
  | skipTurnStep (st : GameLogic) (h : Reachable st) :
      Reachable (st.skipTurn).2
  | surrenderStep (st : GameLogic) (h : Reachable st) :
      Reachable (st.surrender).2

/-- The state invariant holds in every reachable state. -/
theorem reachable_stateInv (st : GameLogic) (h : Reachable st) : stateInv st := by
  induction h with
  | init st h =>
    refine ⟨fun _ => h, fun p hp => ?_⟩
    rw [h] at hp
    exact absurd hp (by simp)
  | placePieceStep st pos piece h ih => exact stateInv_placePiece st pos piece ih
  | startGameStep st chosen h ih => exact stateInv_startGame st chosen ih
  | movePieceStep st f t h ih => exact stateInv_movePiece st f t ih
  | skipTurnStep st h ih => exact stateInv_skipTurn st ih
  | surrenderStep st h ih => exact stateInv_surrender st ih

/-- C10.  In every state reachable from game start by the public
`GameLogic` operations (`place_piece`, `start_game`, `move_piece`,
`skip_turn`, `surrender`), every seat in the eliminated set owns zero
pieces on the board. -/
theorem C10_eliminated_have_no_pieces (st : GameLogic) (h : Reachable st) :
    ∀ p ∈ st.eliminatedPlayers, noPiecesOf st.board p :=
  (reachable_stateInv st h).2

/-- Witness for C10: a fresh Playing state where South owns one flag; after
South surrenders, South is eliminated, and indeed the flag is gone from its
cell (no South piece remains anywhere). -/
theorem C10_eliminated_have_no_pieces_witness :
    (((logicOf (boardOf [(⟨16, 7⟩, { pieceType := .FLAG, player := .PLAYER1 })])
        .PLAYING .PLAYER1).surrender).2.board.pieces ⟨16, 7⟩ ≠
      some { pieceType := .FLAG, player := .PLAYER1 }) ∧
    Player.PLAYER1 ∈
      ((logicOf (boardOf [(⟨16, 7⟩, { pieceType := .FLAG, player := .PLAYER1 })])
        .PLAYING .PLAYER1).surrender).2.eliminatedPlayers := by
  refine ⟨?_, by decide⟩
  intro hq
  exact C10_eliminated_have_no_pieces
    ((logicOf (boardOf [(⟨16, 7⟩, { pieceType := .FLAG, player := .PLAYER1 })])
        .PLAYING .PLAYER1).surrender).2
    (Reachable.surrenderStep _ (Reachable.init _ rfl))
    Player.PLAYER1 (by decide) ⟨16, 7⟩ (by decide)
    { pieceType := .FLAG, player := .PLAYER1 } hq rfl

/-! ## Claim C6: the pool search returns only pool moves -/

theorem mem_insertSortedScored {S : Type} (le : S → S → Bool) (x y : S × (Pos × Pos))
    (l : List (S × (Pos × Pos))) (h : y ∈ insertSortedScored le x l) :
    y = x ∨ y ∈ l := by
  induction l with
  | nil =>
    unfold insertSortedScored at h
    exact Or.inl (List.mem_singleton.mp h)
  | cons z zs ih =>
    unfold insertSortedScored at h
    split at h
    · exact List.mem_cons.mp h
    · rcases List.mem_cons.mp h with h | h
      · exact Or.inr (List.mem_cons.mpr (Or.inl h))
      · rcases ih h with h | h
        · exact Or.inl h
        · exact Or.inr (List.mem_cons.mpr (Or.inr h))

theorem mem_sortScored {S : Type} (le : S → S → Bool) (l : List (S × (Pos × Pos)))
    (y : S × (Pos × Pos)) (h : y ∈ sortScored le l) : y ∈ l := by
  induction l with
  | nil => exact absurd h (by simp [sortScored])
  | cons z zs ih =>
    unfold sortScored at h
    rw [List.foldr_cons] at h
    rcases mem_insertSortedScored le z y _ h with h | h
    · rw [h]
      exact List.mem_cons_self _ _
    · exact List.mem_cons_of_mem _ (ih h)

theorem mem_sortMovesForSide {S : Type} (o : SearchOracle S) (b : Board) (player : Player)
    (moves : List (Pos × Pos)) (maxi : Bool) (hist : List MoveRecord) (m : Pos × Pos)
    (h : m ∈ sortMovesForSide o b player moves maxi hist) : m ∈ moves := by
  unfold sortMovesForSide at h
  dsimp only at h
  rw [List.mem_map] at h
  obtain ⟨y, hy, hym⟩ := h
  have hy2 := mem_sortScored _ _ _ hy
  rw [List.mem_filterMap] at hy2
  obtain ⟨m0, hm0, hmap⟩ := hy2
  cases hb : (b.getCell m0.1).bind (fun c => c.piece) with
  | none =>
    rw [hb] at hmap
    exact absurd hmap (by simp)
  | some attacker =>
    rw [hb] at hmap
    dsimp only at hmap
    injection hmap with h2
    have h3 : m0 = m := by
      rw [← h2] at hym
      exact hym
    rw [← h3]
    exact hm0

theorem maxLoopStep_bestMove {S : Type} (ctx : SearchCtx S)
    (child : Board → Player → S → S → SearchMut S → S × Option (Pos × Pos) × SearchMut S)
    (depthN : Nat) (b : Board) (player : Player) (L : List (Pos × Pos))
    (acc : LoopAcc S) (m : Pos × Pos) (hm : m ∈ L)
    (h : acc.bestMove = none ∨
      (depthN = ctx.cfg.depth ∧ ∃ x ∈ L, acc.bestMove = some x)) :
    (maxLoopStep ctx child depthN b player acc m).bestMove = none ∨
      (depthN = ctx.cfg.depth ∧
        ∃ x ∈ L, (maxLoopStep ctx child depthN b player acc m).bestMove = some x) := by
  unfold maxLoopStep
  split
  · exact h
  · split
    · exact h
    · dsimp only
      split
      · exact h
      · dsimp only
        split
        · split
          · rename_i hd
            exact Or.inr ⟨hd, m, hm, rfl⟩
          · exact h
        · exact h

theorem minLoopStep_bestMove {S : Type} (ctx : SearchCtx S)
    (child : Board → Player → S → S → SearchMut S → S × Option (Pos × Pos) × SearchMut S)
    (depthN : Nat) (b : Board) (player : Player) (L : List (Pos × Pos))
    (acc : LoopAcc S) (m : Pos × Pos) (hm : m ∈ L)
    (h : acc.bestMove = none ∨
      (depthN = ctx.cfg.depth ∧ ∃ x ∈ L, acc.bestMove = some x)) :
    (minLoopStep ctx child depthN b player acc m).bestMove = none ∨
      (depthN = ctx.cfg.depth ∧
        ∃ x ∈ L, (minLoopStep ctx child depthN b player acc m).bestMove = some x) := by
  unfold minLoopStep
  split
  · exact h
  · split
    · exact h
    · dsimp only
      split
      · exact h
      · dsimp only
        split
        · split
          · rename_i hd
            exact Or.inr ⟨hd, m, hm, rfl⟩
          · exact h
        · exact h

theorem maxLoopFold_bestMove {S : Type} (ctx : SearchCtx S)
    (child : Board → Player → S → S → SearchMut S → S × Option (Pos × Pos) × SearchMut S)
    (depthN : Nat) (b : Board) (player : Player) (L : List (Pos × Pos))
    (l : List (Pos × Pos)) :
    ∀ acc : LoopAcc S, (∀ x ∈ l, x ∈ L) →
      (acc.bestMove = none ∨
        (depthN = ctx.cfg.depth ∧ ∃ x ∈ L, acc.bestMove = some x)) →
      ((l.foldl (maxLoopStep ctx child depthN b player) acc).bestMove = none ∨
        (depthN = ctx.cfg.depth ∧
          ∃ x ∈ L, (l.foldl (maxLoopStep ctx child depthN b player) acc).bestMove
            = some x)) := by
  induction l with
  | nil =>
    intro acc _ h
    exact h
  | cons z zs ih =>
    intro acc hl h
    rw [List.foldl_cons]
    exact ih _ (fun x hx => hl x (List.mem_cons_of_mem _ hx))
      (maxLoopStep_bestMove ctx child depthN b player L acc z
        (hl z (List.mem_cons_self _ _)) h)

theorem minLoopFold_bestMove {S : Type} (ctx : SearchCtx S)
    (child : Board → Player → S → S → SearchMut S → S × Option (Pos × Pos) × SearchMut S)
    (depthN : Nat) (b : Board) (player : Player) (L : List (Pos × Pos))
    (l : List (Pos × Pos)) :
    ∀ acc : LoopAcc S, (∀ x ∈ l, x ∈ L) →
      (acc.bestMove = none ∨
        (depthN = ctx.cfg.depth ∧ ∃ x ∈ L, acc.bestMove = some x)) →
      ((l.foldl (minLoopStep ctx child depthN b player) acc).bestMove = none ∨
        (depthN = ctx.cfg.depth ∧
          ∃ x ∈ L, (l.foldl (minLoopStep ctx child depthN b player) acc).bestMove
            = some x)) := by
  induction l with
  | nil =>
    intro acc _ h
    exact h
  | cons z zs ih =>
    intro acc hl h
    rw [List.foldl_cons]
    exact ih _ (fun x hx => hl x (List.mem_cons_of_mem _ hx))
      (minLoopStep_bestMove ctx child depthN b player L acc z
        (hl z (List.mem_cons_self _ _)) h)

theorem maxLoopFold_some {S : Type} (ctx : SearchCtx S)
    (child : Board → Player → S → S → SearchMut S → S × Option (Pos × Pos) × SearchMut S)
    (depthN : Nat) (b : Board) (player : Player) (l : List (Pos × Pos))
    (v0 alpha beta : S) (mst : SearchMut S) (m : Pos × Pos)
    (h : (l.foldl (maxLoopStep ctx child depthN b player)
        { value := v0, bestMove := none, alpha := alpha, beta := beta,
          stopped := false, mst := mst }).bestMove = some m) :
    depthN = ctx.cfg.depth ∧ m ∈ l := by
  rcases maxLoopFold_bestMove ctx child depthN b player l l
      { value := v0, bestMove := none, alpha := alpha, beta := beta,
        stopped := false, mst := mst } (fun x hx => hx) (Or.inl rfl) with
    hn | ⟨hd, x, hx, hbm⟩
  · rw [h] at hn
    exact Option.noConfusion hn
  · rw [h] at hbm
    injection hbm with h2
    refine ⟨hd, ?_⟩
    rw [h2]
    exact hx

theorem minLoopFold_some {S : Type} (ctx : SearchCtx S)
    (child : Board → Player → S → S → SearchMut S → S × Option (Pos × Pos) × SearchMut S)
    (depthN : Nat) (b : Board) (player : Player) (l : List (Pos × Pos))
    (v0 alpha beta : S) (mst : SearchMut S) (m : Pos × Pos)
    (h : (l.foldl (minLoopStep ctx child depthN b player)
        { value := v0, bestMove := none, alpha := alpha, beta := beta,
          stopped := false, mst := mst }).bestMove = some m) :
    depthN = ctx.cfg.depth ∧ m ∈ l := by
  rcases minLoopFold_bestMove ctx child depthN b player l l
      { value := v0, bestMove := none, alpha := alpha, beta := beta,
        stopped := false, mst := mst } (fun x hx => hx) (Or.inl rfl) with
    hn | ⟨hd, x, hx, hbm⟩
  · rw [h] at hn
    exact Option.noConfusion hn
  · rw [h] at hbm
    injection hbm with h2
    refine ⟨hd, ?_⟩
    rw [h2]
    exact hx

theorem mem_ite_take (c : Prop) [Decidable c] (w : Nat) (l : List (Pos × Pos))
    (m : Pos × Pos) (h : m ∈ (if c then l.take w else l)) : m ∈ l := by
  split at h
  · exact List.mem_of_mem_take h
  · exact h

theorem mem_ite_filter_style (c c2 : Prop) [Decidable c] [Decidable c2]
    (q : Pos × Pos → Bool) (base : List (Pos × Pos)) (m : Pos × Pos)
    (h : m ∈ (if c then (if c2 then base.filter q else base) else base)) : m ∈ base := by
  split at h
  · split at h
    · exact List.mem_of_mem_filter h
    · exact h
  · exact h

theorem stepCase_bestMove_mem {S : Type} (ctx : SearchCtx S) (pool : List (Pos × Pos))
    (hpool : ctx.firstPlyMoves = some pool) (d : Nat)
    (child : Board → Player → S → S → SearchMut S → S × Option (Pos × Pos) × SearchMut S)
    (b : Board) (player : Player) (alpha beta : S) (mst : SearchMut S) (m : Pos × Pos)
    (h : (stepCase ctx d child b player alpha beta mst).2.1 = some m) : m ∈ pool := by
  unfold stepCase pollClock at h
  rw [hpool] at h
  dsimp only at h
  split at h
  · simp at h
  · split at h
    · simp at h
    · by_cases hd : d + 1 = ctx.cfg.depth
      · rw [if_pos hd] at h
        cases hfe : (b.enumeratePlayerLegalMoves player).filter
            (fun x => decide (x ∈ pool)) with
        | nil =>
          rw [hfe] at h
          simp at h
        | cons a as =>
          rw [hfe] at h
          dsimp only at h
          simp only [Option.getD_some] at h
          by_cases hstyle : ctx.cfg.applyStyleFilterFirstPly = true ∧
              ctx.preferredCategory.isSome = true
          · have hsty2 : d + 1 = ctx.cfg.depth ∧
                ctx.cfg.applyStyleFilterFirstPly = true ∧
                ctx.preferredCategory.isSome = true := ⟨hd, hstyle.1, hstyle.2⟩
            rw [if_pos hsty2] at h
            by_cases hfil : List.filter
                (fun x => decide (some (ctx.o.classifyMove b player x.1 x.2) =
                  ctx.preferredCategory)) (a :: as) = []
            · have hcne : ¬ (List.filter
                  (fun x => decide (some (ctx.o.classifyMove b player x.1 x.2) =
                    ctx.preferredCategory)) (a :: as) ≠ []) := fun hne => hne hfil
              rw [if_neg hcne, if_neg (List.cons_ne_nil a as)] at h
              by_cases hmax : areAllied player ctx.startPlayer = true
              · rw [if_pos hmax] at h
                dsimp only at h
                obtain ⟨hd2, hmem⟩ := maxLoopFold_some ctx child (d + 1) b player _
                  _ _ _ _ m h
                have h1 := mem_ite_take _ _ _ _ hmem
                have h2 := mem_sortMovesForSide _ _ _ _ _ _ _ h1
                rw [← hfe] at h2
                exact of_decide_eq_true (List.mem_filter.mp h2).2
              · rw [if_neg hmax] at h
                dsimp only at h
                obtain ⟨hd2, hmem⟩ := minLoopFold_some ctx child (d + 1) b player _
                  _ _ _ _ m h
                have h1 := mem_ite_take _ _ _ _ hmem
                have h2 := mem_sortMovesForSide _ _ _ _ _ _ _ h1
                rw [← hfe] at h2
                exact of_decide_eq_true (List.mem_filter.mp h2).2
            · rw [if_pos hfil, if_neg hfil] at h
              by_cases hmax : areAllied player ctx.startPlayer = true
              · rw [if_pos hmax] at h
                dsimp only at h
                obtain ⟨hd2, hmem⟩ := maxLoopFold_some ctx child (d + 1) b player _
                  _ _ _ _ m h
                have h1 := mem_ite_take _ _ _ _ hmem
                have h2 := mem_sortMovesForSide _ _ _ _ _ _ _ h1
                have h3 := List.mem_of_mem_filter h2
                rw [← hfe] at h3
                exact of_decide_eq_true (List.mem_filter.mp h3).2
              · rw [if_neg hmax] at h
                dsimp only at h
                obtain ⟨hd2, hmem⟩ := minLoopFold_some ctx child (d + 1) b player _
                  _ _ _ _ m h
                have h1 := mem_ite_take _ _ _ _ hmem
                have h2 := mem_sortMovesForSide _ _ _ _ _ _ _ h1
                have h3 := List.mem_of_mem_filter h2
                rw [← hfe] at h3
                exact of_decide_eq_true (List.mem_filter.mp h3).2
          · have hsty2 : ¬ (d + 1 = ctx.cfg.depth ∧
                ctx.cfg.applyStyleFilterFirstPly = true ∧
                ctx.preferredCategory.isSome = true) :=
              fun hcc => hstyle ⟨hcc.2.1, hcc.2.2⟩
            rw [if_neg hsty2, if_neg (List.cons_ne_nil a as)] at h
            by_cases hmax : areAllied player ctx.startPlayer = true
            · rw [if_pos hmax] at h
              dsimp only at h
              obtain ⟨hd2, hmem⟩ := maxLoopFold_some ctx child (d + 1) b player _
                _ _ _ _ m h
              have h1 := mem_ite_take _ _ _ _ hmem
              have h2 := mem_sortMovesForSide _ _ _ _ _ _ _ h1
              rw [← hfe] at h2
              exact of_decide_eq_true (List.mem_filter.mp h2).2
            · rw [if_neg hmax] at h
              dsimp only at h
              obtain ⟨hd2, hmem⟩ := minLoopFold_some ctx child (d + 1) b player _
                _ _ _ _ m h
              have h1 := mem_ite_take _ _ _ _ hmem
              have h2 := mem_sortMovesForSide _ _ _ _ _ _ _ h1
              rw [← hfe] at h2
              exact of_decide_eq_true (List.mem_filter.mp h2).2
      · rw [if_neg hd] at h
        dsimp only at h
        simp only [Option.getD_none] at h
        have hsty2 : ¬ (d + 1 = ctx.cfg.depth ∧
            ctx.cfg.applyStyleFilterFirstPly = true ∧
            ctx.preferredCategory.isSome = true) := fun hcc => hd hcc.1
        rw [if_neg hsty2] at h
        by_cases he : b.enumeratePlayerLegalMoves player = []
        · rw [if_pos he] at h
          simp at h
        · rw [if_neg he] at h
          by_cases hmax : areAllied player ctx.startPlayer = true
          · rw [if_pos hmax] at h
            dsimp only at h
            obtain ⟨hd2, _⟩ := maxLoopFold_some ctx child (d + 1) b player _
              _ _ _ _ m h
            exact absurd hd2 hd
          · rw [if_neg hmax] at h
            dsimp only at h
            obtain ⟨hd2, _⟩ := minLoopFold_some ctx child (d + 1) b player _
              _ _ _ _ m h
            exact absurd hd2 hd

theorem recurse_bestMove_mem {S : Type} (ctx : SearchCtx S) (pool : List (Pos × Pos))
    (hpool : ctx.firstPlyMoves = some pool) (d : Nat) (b : Board) (player : Player)
    (alpha beta : S) (mst : SearchMut S) (m : Pos × Pos)
    (h : (recurse ctx d b player alpha beta mst).2.1 = some m) : m ∈ pool := by
  cases d with
  | zero => simp [recurse] at h
  | succ d =>
    exact stepCase_bestMove_mem ctx pool hpool d (recurse ctx d) b player
      alpha beta mst m h

/-- C6.  `search_best_move_in_pool` returns no move on an empty candidate
pool, and any move it returns is an element of the input candidate pool. -/
theorem C6_pool_search {S : Type} (o : SearchOracle S) (cfg : SearchConfig S)
    (history : List MoveRecord) (b : Board) (player : Player)
    (pool : List (Pos × Pos)) (pref : Option String) :
    (pool = [] →
      (searchBestMoveInPool o cfg history b player pool pref).bestMove = none) ∧
    ∀ m, (searchBestMoveInPool o cfg history b player pool pref).bestMove = some m →
      m ∈ pool := by
  constructor
  · intro hp
    subst hp
    rfl
  · intro m hm
    unfold searchBestMoveInPool at hm
    split at hm
    · simp at hm
    · unfold alphaBetaSearch at hm
      dsimp only at hm
      exact recurse_bestMove_mem _ pool rfl cfg.depth b player _ _ _ m hm

/-- Witness for C6: with the integer oracle and an empty candidate pool the
search returns no move. -/
theorem C6_pool_search_witness :
    (searchBestMoveInPool intOracle cfg1 [] (boardOf []) Player.PLAYER1 []
      none).bestMove = none :=
  (C6_pool_search intOracle cfg1 [] (boardOf []) Player.PLAYER1 [] none).1 rfl

end Junqi
